import Mathlib

set_option linter.unusedTactic false
set_option linter.unreachableTactic false
set_option linter.unusedVariables false

/-!
The archive ingestion pipeline of ingress-test.

A shallow embedding of `src/main.go`: `untar`, `extractPackages` and the part of
`handleFileUpload` that composes them, over the global catalog `systemComponents`.

Go strings and byte slices are lists of bytes (natural numbers below 256).  The Go
standard library calls the program makes (`strings.SplitAfterN`, `bufio.Scanner` with
its default `ScanLines` split function and token limit, `json.Unmarshal` into a
`Component`) are modelled after the library's documented behaviour.
-/

namespace IngressTest

/-- A Go `string` or `[]byte`: a sequence of bytes. -/
abbrev Bytes := List Nat

/-! ## Data model (`main.go` lines 15-37) -/

/-- Go `type Component struct`: ten string fields. -/
structure Component where
  Name : Bytes
  Epoch : Bytes
  Version : Bytes
  Release : Bytes
  Arch : Bytes
  Installtime : Bytes
  Buildtime : Bytes
  Vendor : Bytes
  Buildhost : Bytes
  Sigpgp : Bytes
  deriving DecidableEq, Repr

/-- Go `type SystemComponents struct`. -/
structure SystemComponents where
  SystemID : Bytes
  Components : List Component
  deriving DecidableEq, Repr

/-- The errors the program builds with `fmt.Errorf`, one constructor per call site. -/
inductive GoError where
  /-- `"error reading tar file: %v"` (line 50). -/
  | readingTarFile
  /-- `"error reading file content: %v"` (line 67). -/
  | readingFileContent
  /-- `"Failed to find machine ID"` (line 90). -/
  | machineIDNotFound
  /-- `"Failed to find package list file"` (line 96). -/
  | packageListNotFound
  /-- `"Error unmarshaling component: %w"` (line 104). -/
  | unmarshalingComponent
  deriving DecidableEq, Repr

/-- How a call of a Go function of result type `error` ends: it returns `nil`, it
returns an error value, or it does not return because of a run-time panic. -/
inductive Outcome where
  | ok
  | error (e : GoError)
  /-- Run-time panic `index out of range [1] with length 1`. -/
  | panicIndexOutOfRange
  deriving DecidableEq, Repr

/-! ## Archive extraction (`untar`, lines 39-78) -/

/-- Go `map[string]*bytes.Buffer`, observed through lookup: a partial function from
keys to buffer contents. -/
abbrev FileMap := Bytes → Option Bytes

/-- The map `make(map[string]*bytes.Buffer)` creates. -/
def FileMap.empty : FileMap := fun _ => none

/-- The assignment `m[k] = v`. -/
def FileMap.set (m : FileMap) (k v : Bytes) : FileMap :=
  fun q => if q = k then some v else m q

/-- Constant `tar.TypeReg`, the byte `'0'`. -/
def TypeReg : Nat := 48

/-- Constant `tar.TypeDir`, the byte `'5'`. -/
def TypeDir : Nat := 53

/-- The two fields of `tar.Header` the program reads. -/
structure Header where
  Typeflag : Nat
  Name : Bytes
  deriving DecidableEq, Repr

/-- What one call of `tarReader.Next()` delivers before the end of the archive: a
header together with what `io.Copy(buf, tarReader)` would read for it (`none` when
that copy fails), or a read error. -/
inductive TarItem where
  | entry (header : Header) (content : Option Bytes)
  | broken
  deriving DecidableEq, Repr

/-- A `tar.Reader` positioned at the start of an archive: the items `Next()` delivers
in order; after the last one `Next()` returns `io.EOF`. -/
abbrev TarReader := List TarItem

/-- Position of the first occurrence of `c` in `s`, counted from `i`. -/
def indexFrom : Bytes → Nat → Nat → Option Nat
  | [], _, _ => none
  | b :: bs, c, i => if b = c then some i else indexFrom bs c (i + 1)

/-- Go `bytes.IndexByte`: position of the first occurrence of `c`. -/
def IndexByte (s : Bytes) (c : Nat) : Option Nat := indexFrom s c 0

/-- Go `strings.SplitAfterN(s, sep, n)` for a one-byte separator and `n ≥ 0`: at most
`n` pieces, each but the last ending in the separator, the last holding the rest. -/
def SplitAfterN (s : Bytes) (sep : Nat) (n : Nat) : List Bytes :=
  match n, s with
  | 0, _ => []
  | 1, s => [s]
  | n + 2, s =>
    match IndexByte s sep with
    | none => [s]
    | some i => s.take (i + 1) :: SplitAfterN (s.drop (i + 1)) sep (n + 1)

/-- The byte `'/'`. -/
def slash : Nat := 47

/-- Function `untar` (lines 39-78).  Returns how the call ends and the contents of
`filesInMemory`, which the function updates in place. -/
def untar : TarReader → FileMap → Outcome × FileMap
  | [], filesInMemory => (Outcome.ok, filesInMemory)
  | TarItem.broken :: _, filesInMemory => (Outcome.error GoError.readingTarFile, filesInMemory)
  | TarItem.entry header content :: reader, filesInMemory =>
    if header.Typeflag = TypeDir then
      untar reader filesInMemory
    else if header.Typeflag = TypeReg then
      match content with
      | none => (Outcome.error GoError.readingFileContent, filesInMemory)
      | some buf =>
        match (SplitAfterN header.Name slash 2)[1]? with
        | none => (Outcome.panicIndexOutOfRange, filesInMemory)
        | some fileName => untar reader (filesInMemory.set fileName buf)
    else
      untar reader filesInMemory

/-! ## `encoding/json`: `json.Unmarshal(data, &c)` for `c` of type `Component` -/

/-- JSON insignificant whitespace: space, tab, carriage return, line feed. -/
def isSpace (c : Nat) : Bool := c = 32 || c = 9 || c = 13 || c = 10

/-- ASCII decimal digit. -/
def isDigit (c : Nat) : Bool := 48 ≤ c && c ≤ 57

/-- ASCII hexadecimal digit. -/
def isHex (c : Nat) : Bool :=
  (48 ≤ c && c ≤ 57) || (97 ≤ c && c ≤ 102) || (65 ≤ c && c ≤ 70)

/-- The character after a backslash in a string literal, other than `u`:
one of `"`, `\`, `/`, `b`, `f`, `n`, `r`, `t`. -/
def isEscape (c : Nat) : Bool :=
  c = 34 || c = 92 || c = 47 || c = 98 || c = 102 || c = 110 || c = 114 || c = 116

/-- What the decoder needs to know of a JSON value that is to be stored into a Go
`string` field: its kind, and for a string literal its raw text (the bytes between the
quotes, escapes not yet interpreted). -/
inductive Kind where
  | null
  | bool
  | number
  | string (raw : Bytes)
  | array
  | object
  deriving DecidableEq, Repr

/-- A parsed JSON text: the kind of the top-level value and, for an object, its
members in order of appearance (raw key text and the kind of the member value). -/
structure Parsed where
  kind : Kind
  members : List (Bytes × Kind)
  deriving DecidableEq, Repr

/-- Constant `maxNestingDepth` of `encoding/json`. -/
def maxNestingDepth : Nat := 10000

/-- The entries of the `parseState` stack of the `encoding/json` scanner
(`parseObjectKey`, `parseObjectValue`, `parseArrayValue`). -/
inductive ParseState where
  | objectKey
  | objectValue
  | arrayValue
  deriving DecidableEq, Repr

/-- The step functions of the `encoding/json` scanner (`stateBeginValue`, ...,
`stateNul`), as the values its field `step` takes. -/
inductive StepState where
  | beginValueOrEmpty
  | beginValue
  | beginStringOrEmpty
  | beginString
  | endValue
  | endTop
  | inString
  | inStringEsc
  | inStringEscU
  | inStringEscU1
  | inStringEscU12
  | inStringEscU123
  | neg
  | one
  | zero
  | dot
  | dot0
  | e
  | eSign
  | e0
  | t
  | tr
  | tru
  | f
  | fa
  | fal
  | fals
  | n
  | nu
  | nul
  deriving DecidableEq, Repr

/-- The `encoding/json` scanner (fields `step`, `parseState` with the innermost
container first, `endTop`) together with what the decoder reads off the text while the
scanner runs over it: the kind of the top-level value, the members of a top-level
object, the raw key of the member being read and the raw text of the string literal
being read. -/
structure JSONScanner where
  step : StepState
  parseState : List ParseState
  endTop : Bool
  kind : Kind
  members : List (Bytes × Kind)
  key : Bytes
  text : Bytes
  deriving DecidableEq, Repr

/-- The scanner after `reset()`. -/
def JSONScanner.reset : JSONScanner :=
  ⟨StepState.beginValue, [], false, Kind.null, [], [], []⟩

/-- Notes a value of kind `k` that begins or ends here: as the top-level value, or as
the value of the current member of the top-level object; values nested deeper are
not noted. -/
def JSONScanner.note (s : JSONScanner) (k : Kind) : JSONScanner :=
  match s.parseState with
  | [] => { s with kind := k }
  | [ParseState.objectValue] => { s with members := s.members ++ [(s.key, k)] }
  | _ => s

/-- Go `pushParseState`: opens a container; an error beyond `maxNestingDepth`. -/
def JSONScanner.pushParseState (s : JSONScanner) (p : ParseState) (next : StepState) :
    Option JSONScanner :=
  if s.parseState.length + 1 ≤ maxNestingDepth then
    some { s with parseState := p :: s.parseState, step := next }
  else none

/-- Go `popParseState`: closes the innermost container. -/
def JSONScanner.popParseState (s : JSONScanner) : JSONScanner :=
  match s.parseState.tail with
  | [] => { s with parseState := [], step := StepState.endTop, endTop := true }
  | rest => { s with parseState := rest, step := StepState.endValue }

/-- Go `stateEndTop`: after the top-level value only whitespace may follow. -/
def stateEndTop (s : JSONScanner) (c : Nat) : Option JSONScanner :=
  if isSpace c then some s else none

/-- Go `stateEndValue`: the byte after a complete value. -/
def stateEndValue (s : JSONScanner) (c : Nat) : Option JSONScanner :=
  match s.parseState with
  | [] => stateEndTop { s with step := StepState.endTop, endTop := true } c
  | ps :: rest =>
    if isSpace c then some { s with step := StepState.endValue }
    else
      match ps with
      | ParseState.objectKey =>
        if c = 58 then
          some { s with parseState := ParseState.objectValue :: rest, step := StepState.beginValue }
        else none
      | ParseState.objectValue =>
        if c = 44 then
          some { s with parseState := ParseState.objectKey :: rest, step := StepState.beginString }
        else if c = 125 then some s.popParseState
        else none
      | ParseState.arrayValue =>
        if c = 44 then some { s with step := StepState.beginValue }
        else if c = 93 then some s.popParseState
        else none

/-- The closing quote of a string literal: the literal is the top-level value, a key
of the top-level object, a member value of it, or nested deeper. -/
def JSONScanner.closeString (s : JSONScanner) : JSONScanner :=
  match s.parseState with
  | [ParseState.objectKey] => { s with key := s.text, step := StepState.endValue }
  | _ => { s.note (Kind.string s.text) with step := StepState.endValue }

/-- Go `stateInString`. -/
def stateInString (s : JSONScanner) (c : Nat) : Option JSONScanner :=
  if c = 34 then some s.closeString
  else if c = 92 then some { s with step := StepState.inStringEsc, text := s.text ++ [c] }
  else if c < 32 then none
  else some { s with text := s.text ++ [c] }

/-- Go `stateInStringEsc`. -/
def stateInStringEsc (s : JSONScanner) (c : Nat) : Option JSONScanner :=
  if isEscape c then some { s with step := StepState.inString, text := s.text ++ [c] }
  else if c = 117 then some { s with step := StepState.inStringEscU, text := s.text ++ [c] }
  else none

/-- Go `stateInStringEscU`, `stateInStringEscU1`, `stateInStringEscU12` and
`stateInStringEscU123`: one hexadecimal digit, then on to `next`. -/
def stateInStringEscU (s : JSONScanner) (c : Nat) (next : StepState) : Option JSONScanner :=
  if isHex c then some { s with step := next, text := s.text ++ [c] } else none

/-- Go `state0`: after the integer part of a number. -/
def state0 (s : JSONScanner) (c : Nat) : Option JSONScanner :=
  if c = 46 then some { s with step := StepState.dot }
  else if c = 101 || c = 69 then some { s with step := StepState.e }
  else stateEndValue s c

/-- Go `state1`: inside the digits of an integer part. -/
def state1 (s : JSONScanner) (c : Nat) : Option JSONScanner :=
  if isDigit c then some { s with step := StepState.one } else state0 s c

/-- Go `stateNeg`: after a minus sign. -/
def stateNeg (s : JSONScanner) (c : Nat) : Option JSONScanner :=
  if c = 48 then some { s with step := StepState.zero }
  else if 49 ≤ c && c ≤ 57 then some { s with step := StepState.one }
  else none

/-- Go `stateDot`: after the decimal point. -/
def stateDot (s : JSONScanner) (c : Nat) : Option JSONScanner :=
  if isDigit c then some { s with step := StepState.dot0 } else none

/-- Go `stateDot0`: inside the digits of a fraction. -/
def stateDot0 (s : JSONScanner) (c : Nat) : Option JSONScanner :=
  if isDigit c then some s
  else if c = 101 || c = 69 then some { s with step := StepState.e }
  else stateEndValue s c

/-- Go `stateESign`: after the sign of an exponent. -/
def stateESign (s : JSONScanner) (c : Nat) : Option JSONScanner :=
  if isDigit c then some { s with step := StepState.e0 } else none

/-- Go `stateE`: after the `e` of an exponent. -/
def stateE (s : JSONScanner) (c : Nat) : Option JSONScanner :=
  if c = 43 || c = 45 then some { s with step := StepState.eSign } else stateESign s c

/-- Go `stateE0`: inside the digits of an exponent. -/
def stateE0 (s : JSONScanner) (c : Nat) : Option JSONScanner :=
  if isDigit c then some s else stateEndValue s c

/-- Go `stateT`, ..., `stateNul`: the next letter of `true`, `false` or `null`. -/
def stateLiteral (s : JSONScanner) (c expected : Nat) (next : StepState) : Option JSONScanner :=
  if c = expected then some { s with step := next } else none

/-- Go `stateBeginValue`: the first byte of a value. -/
def stateBeginValue (s : JSONScanner) (c : Nat) : Option JSONScanner :=
  if isSpace c then some s
  else if c = 123 then
    (s.note Kind.object).pushParseState ParseState.objectKey StepState.beginStringOrEmpty
  else if c = 91 then
    (s.note Kind.array).pushParseState ParseState.arrayValue StepState.beginValueOrEmpty
  else if c = 34 then some { s with step := StepState.inString, text := [] }
  else if c = 45 then some { s.note Kind.number with step := StepState.neg }
  else if c = 48 then some { s.note Kind.number with step := StepState.zero }
  else if c = 116 then some { s.note Kind.bool with step := StepState.t }
  else if c = 102 then some { s.note Kind.bool with step := StepState.f }
  else if c = 110 then some { s.note Kind.null with step := StepState.n }
  else if 49 ≤ c && c ≤ 57 then some { s.note Kind.number with step := StepState.one }
  else none

/-- Go `stateBeginValueOrEmpty`: after `[`. -/
def stateBeginValueOrEmpty (s : JSONScanner) (c : Nat) : Option JSONScanner :=
  if isSpace c then some s
  else if c = 93 then stateEndValue s c
  else stateBeginValue s c

/-- Go `stateBeginString`: after `,` in an object, a key must follow. -/
def stateBeginString (s : JSONScanner) (c : Nat) : Option JSONScanner :=
  if isSpace c then some s
  else if c = 34 then some { s with step := StepState.inString, text := [] }
  else none

/-- Go `stateBeginStringOrEmpty`: after `{`. -/
def stateBeginStringOrEmpty (s : JSONScanner) (c : Nat) : Option JSONScanner :=
  if isSpace c then some s
  else if c = 125 then
    stateEndValue { s with parseState := ParseState.objectValue :: s.parseState.tail } c
  else stateBeginString s c

/-- The call `s.step(s, c)`; `none` is `scanError`. -/
def JSONScanner.next (s : JSONScanner) (c : Nat) : Option JSONScanner :=
  match s.step with
  | StepState.beginValueOrEmpty => stateBeginValueOrEmpty s c
  | StepState.beginValue => stateBeginValue s c
  | StepState.beginStringOrEmpty => stateBeginStringOrEmpty s c
  | StepState.beginString => stateBeginString s c
  | StepState.endValue => stateEndValue s c
  | StepState.endTop => stateEndTop s c
  | StepState.inString => stateInString s c
  | StepState.inStringEsc => stateInStringEsc s c
  | StepState.inStringEscU => stateInStringEscU s c StepState.inStringEscU1
  | StepState.inStringEscU1 => stateInStringEscU s c StepState.inStringEscU12
  | StepState.inStringEscU12 => stateInStringEscU s c StepState.inStringEscU123
  | StepState.inStringEscU123 => stateInStringEscU s c StepState.inString
  | StepState.neg => stateNeg s c
  | StepState.one => state1 s c
  | StepState.zero => state0 s c
  | StepState.dot => stateDot s c
  | StepState.dot0 => stateDot0 s c
  | StepState.e => stateE s c
  | StepState.eSign => stateESign s c
  | StepState.e0 => stateE0 s c
  | StepState.t => stateLiteral s c 114 StepState.tr
  | StepState.tr => stateLiteral s c 117 StepState.tru
  | StepState.tru => stateLiteral s c 101 StepState.endValue
  | StepState.f => stateLiteral s c 97 StepState.fa
  | StepState.fa => stateLiteral s c 108 StepState.fal
  | StepState.fal => stateLiteral s c 115 StepState.fals
  | StepState.fals => stateLiteral s c 101 StepState.endValue
  | StepState.n => stateLiteral s c 117 StepState.nu
  | StepState.nu => stateLiteral s c 108 StepState.nul
  | StepState.nul => stateLiteral s c 108 StepState.endValue

/-- The loop of Go `checkValid`: the scanner steps over every byte of the text. -/
def JSONScanner.run : Bytes → JSONScanner → Option JSONScanner
  | [], s => some s
  | c :: cs, s =>
    match s.next c with
    | none => none
    | some s2 => JSONScanner.run cs s2

/-- Go `(*scanner).eof`: the text is complete when the top-level value has ended,
possibly after a closing space (which ends a number). -/
def JSONScanner.eof (s : JSONScanner) : Option JSONScanner :=
  if s.endTop then some s
  else
    match s.next 32 with
    | none => none
    | some s2 => if s2.endTop then some s2 else none

/-- The validity check and tokenisation of `json.Unmarshal`: the input must be
exactly one JSON value, surrounded by optional whitespace. -/
def parseJSON (data : Bytes) : Option Parsed :=
  match JSONScanner.run data JSONScanner.reset with
  | none => none
  | some s =>
    match s.eof with
    | none => none
    | some s2 => some ⟨s2.kind, s2.members⟩

/-- Value of a hexadecimal digit. -/
def hexValue (c : Nat) : Nat :=
  if 48 ≤ c && c ≤ 57 then c - 48
  else if 97 ≤ c && c ≤ 102 then c - 87
  else c - 55

/-- Go `getu4` on four hexadecimal digits: the code unit of a `\uXXXX` escape. -/
def getu4 (h1 h2 h3 h4 : Nat) : Nat :=
  ((hexValue h1 * 16 + hexValue h2) * 16 + hexValue h3) * 16 + hexValue h4

/-- Go `utf8.EncodeRune`: the UTF-8 encoding of a code point; surrogates and values
above U+10FFFF are encoded as U+FFFD. -/
def EncodeRune (r : Nat) : Bytes :=
  if r < 0x80 then [r]
  else if r < 0x800 then [0xC0 + r / 64, 0x80 + r % 64]
  else if (0xD800 ≤ r && r < 0xE000) || 0x10FFFF < r then [0xEF, 0xBF, 0xBD]
  else if r < 0x10000 then [0xE0 + r / 4096, 0x80 + r / 64 % 64, 0x80 + r % 64]
  else [0xF0 + r / 262144, 0x80 + r / 4096 % 64, 0x80 + r / 64 % 64, 0x80 + r % 64]

/-- The bytes of a string literal of the program text. -/
def bytesOf (s : String) : Bytes :=
  s.toList.foldr (fun c acc => EncodeRune c.toNat ++ acc) []

/-- UTF-8 continuation byte. -/
def isCont (c : Nat) : Bool := 0x80 ≤ c && c ≤ 0xBF

/-- Whether `c0 c1` is a well-formed two-byte UTF-8 sequence. -/
def valid2 (c0 c1 : Nat) : Bool := 0xC2 ≤ c0 && c0 ≤ 0xDF && isCont c1

/-- Whether `c0 c1 c2` is a well-formed three-byte UTF-8 sequence. -/
def valid3 (c0 c1 c2 : Nat) : Bool :=
  ((c0 = 0xE0 && 0xA0 ≤ c1 && c1 ≤ 0xBF) ||
   (0xE1 ≤ c0 && c0 ≤ 0xEC && isCont c1) ||
   (c0 = 0xED && 0x80 ≤ c1 && c1 ≤ 0x9F) ||
   (0xEE ≤ c0 && c0 ≤ 0xEF && isCont c1)) && isCont c2

/-- Whether `c0 c1 c2 c3` is a well-formed four-byte UTF-8 sequence. -/
def valid4 (c0 c1 c2 c3 : Nat) : Bool :=
  ((c0 = 0xF0 && 0x90 ≤ c1 && c1 ≤ 0xBF) ||
   (0xF1 ≤ c0 && c0 ≤ 0xF3 && isCont c1) ||
   (c0 = 0xF4 && 0x80 ≤ c1 && c1 ≤ 0x8F)) && isCont c2 && isCont c3

/-- The byte an escape `\c` other than `\u` stands for. -/
def unescape (c : Nat) : Nat :=
  if c = 98 then 8
  else if c = 102 then 12
  else if c = 110 then 10
  else if c = 114 then 13
  else if c = 116 then 9
  else c

/-- The encoding of U+FFFD, the replacement character. -/
def replacement : Bytes := [0xEF, 0xBF, 0xBD]

/-- Go `unquoteBytes` on the raw text of a validated string literal: escapes are
interpreted, a surrogate pair of `\u` escapes becomes one code point, a lone
surrogate and every byte that is not part of well-formed UTF-8 become U+FFFD. -/
def unquote : Bytes → Bytes
  | [] => []
  | c :: cs =>
    if c = 92 then
      match cs with
      | [] => []
      | e :: es =>
        if e = 117 then
          match es with
          | h1 :: h2 :: h3 :: h4 :: rest =>
            let rr := getu4 h1 h2 h3 h4
            let single := unquote rest
            if 0xD800 ≤ rr && rr < 0xE000 then
              match rest with
              | b :: u :: g1 :: g2 :: g3 :: g4 :: rest2 =>
                let rr1 := getu4 g1 g2 g3 g4
                if b = 92 && u = 117 && isHex g1 && isHex g2 && isHex g3 && isHex g4
                    && rr < 0xDC00 && 0xDC00 ≤ rr1 && rr1 < 0xE000 then
                  EncodeRune (0x10000 + ((rr - 0xD800) * 1024 + (rr1 - 0xDC00))) ++ unquote rest2
                else replacement ++ single
              | _ => replacement ++ single
            else EncodeRune rr ++ single
          | _ => []
        else unescape e :: unquote es
    else if c < 0x80 then c :: unquote cs
    else
      let invalid := replacement ++ unquote cs
      match cs with
      | [] => invalid
      | c1 :: t1 =>
        if valid2 c c1 then c :: c1 :: unquote t1
        else
          match t1 with
          | [] => invalid
          | c2 :: t2 =>
            if valid3 c c1 c2 then c :: c1 :: c2 :: unquote t2
            else
              match t2 with
              | [] => invalid
              | c3 :: t3 =>
                if valid4 c c1 c2 c3 then c :: c1 :: c2 :: c3 :: unquote t3
                else invalid

/-- Case folding of an object key as far as it decides a match with a field name made
of ASCII characters: ASCII letters are folded to upper case, and so are the only two
other characters whose Unicode simple case folding is an ASCII letter, U+017F (to `S`)
and U+212A (to `K`). -/
def foldName : Bytes → Bytes
  | [] => []
  | c :: cs =>
    let unfolded := c :: foldName cs
    if 97 ≤ c && c ≤ 122 then (c - 32) :: foldName cs
    else if c = 0xC5 then
      match cs with
      | d :: rest => if d = 0xBF then 83 :: foldName rest else unfolded
      | [] => unfolded
    else if c = 0xE2 then
      match cs with
      | d :: e :: rest => if d = 0x84 && e = 0xAA then 75 :: foldName rest else unfolded
      | _ => unfolded
    else unfolded

/-- The zero value of `Component`, the state of `var c Component`. -/
def Component.zero : Component := ⟨[], [], [], [], [], [], [], [], [], []⟩

/-- Stores a string into the field whose `json` tag matches the key, exactly or
under case folding; `none` when no field matches. -/
def storeField (c : Component) (key value : Bytes) : Option Component :=
  let k := foldName key
  if k = foldName (bytesOf "name") then some { c with Name := value }
  else if k = foldName (bytesOf "epoch") then some { c with Epoch := value }
  else if k = foldName (bytesOf "version") then some { c with Version := value }
  else if k = foldName (bytesOf "release") then some { c with Release := value }
  else if k = foldName (bytesOf "arch") then some { c with Arch := value }
  else if k = foldName (bytesOf "installtime") then some { c with Installtime := value }
  else if k = foldName (bytesOf "buildtime") then some { c with Buildtime := value }
  else if k = foldName (bytesOf "vendor") then some { c with Vendor := value }
  else if k = foldName (bytesOf "buildhost") then some { c with Buildhost := value }
  else if k = foldName (bytesOf "sigpgp") then some { c with Sigpgp := value }
  else none

/-- Decoding of the members of a JSON object into a `Component`, in order.  A member
whose key matches no field is skipped whatever its value; for a key that matches a
field, a string value is stored, `null` leaves the field as it is, and any other value
is an `UnmarshalTypeError` (result `none`). -/
def decodeObject : List (Bytes × Kind) → Component → Option Component
  | [], c => some c
  | (key, v) :: ms, c =>
    match v with
    | Kind.string raw =>
      match storeField c (unquote key) (unquote raw) with
      | some stored => decodeObject ms stored
      | none => decodeObject ms c
    | Kind.null => decodeObject ms c
    | _ => if (storeField c (unquote key) []).isSome then none else decodeObject ms c

/-- Go `json.Unmarshal(data, &c)` with `c` a zero `Component`: `some` of the decoded
value when the call returns `nil`, `none` when it returns an error (a syntax error,
or a JSON value that does not fit the Go type). -/
def jsonUnmarshal (data : Bytes) : Option Component :=
  match parseJSON data with
  | none => none
  | some v =>
    match v.kind with
    | Kind.null => some Component.zero
    | Kind.object => decodeObject v.members Component.zero
    | _ => none

/-! ## `bufio.Scanner` over `bytes.NewReader(buff.Bytes())` -/

/-- Constant `bufio.MaxScanTokenSize`: the size the scanner's buffer may grow to. -/
def MaxScanTokenSize : Nat := 64 * 1024

/-- Go `dropCR`: drops one trailing carriage return. -/
def dropCR (data : Bytes) : Bytes :=
  if data.getLast? = some 13 then data.dropLast else data

/-- Go `bufio.ScanLines`, the default split function: how far to advance and the
token found, if any, in the buffered `data`. -/
def ScanLines (data : Bytes) (atEOF : Bool) : Nat × Option Bytes :=
  if atEOF && data.isEmpty then (0, none)
  else
    match IndexByte data 10 with
    | some i => (i + 1, some (dropCR (data.take i)))
    | none => if atEOF then (data.length, some (dropCR data)) else (0, none)

/-- A `bufio.Scanner` reading from memory: the input no token has consumed yet, and
the token of the last successful `Scan` (the result of `scanner.Bytes()`). -/
structure Scanner where
  input : Bytes
  tok : Bytes
  deriving DecidableEq, Repr

/-- Go `bufio.NewScanner(bytes.NewReader(data))`. -/
def NewScanner (data : Bytes) : Scanner := ⟨data, []⟩

/-- Go `(*Scanner).Scan`.  The scanner fills its buffer from the unconsumed input
until the split function finds a token; the buffer holds at most `MaxScanTokenSize`
bytes, and the split function is told the input has ended only once the reader has
reported it, which takes a read into free buffer space.  So the split function decides
on the first `MaxScanTokenSize` unconsumed bytes, with `atEOF` set when fewer are left.
`Scan` returns `false` at the end of the input and also when the buffer is full and
holds no token (`bufio.ErrTooLong`, which only `scanner.Err()` would tell apart). -/
def Scanner.Scan (s : Scanner) : Bool × Scanner :=
  match ScanLines (s.input.take MaxScanTokenSize) (decide (s.input.length < MaxScanTokenSize)) with
  | (advance, some token) => (true, ⟨s.input.drop advance, token⟩)
  | (_, none) => (false, ⟨s.input, []⟩)

/-! ## Manifest parsing (`extractPackages`, lines 80-112) -/

/-- Local `packageListFileName` (line 81). -/
def packageListFileName : Bytes :=
  bytesOf "data/insights_commands/rpm_-qa_--qf_name_NAME_epoch_EPOCH_version_VERSION_release_RELEASE_arch_ARCH_installtime_INSTALLTIME_date_buildtime_BUILDTIME_vendor_VENDOR_buildhost_BUILDHOST_sigpgp_SIGPGP_pgpsig_n"

/-- Local `machineIdFileName` (line 82). -/
def machineIdFileName : Bytes := bytesOf "data/etc/insights-client/machine-id"

/-- The loop `for scanner.Scan() { ... }` (lines 101-107), started with the
components collected so far: the error of the first line `json.Unmarshal` rejects,
or the components once `Scan` returns `false`. -/
def scanLoop (scanner : Scanner) (components : List Component) :
    Except GoError (List Component) :=
  match h : scanner.Scan with
  | (false, _) => Except.ok components
  | (true, next) =>
    match jsonUnmarshal next.tok with
    | none => Except.error GoError.unmarshalingComponent
    | some c => scanLoop next (components ++ [c])
termination_by scanner.input.length
decreasing_by
  simp only [Scanner.Scan, ScanLines] at h
  have hpos : ∀ (l : Bytes) (n : Nat), 0 < n → l ≠ [] → (l.drop n).length < l.length := by
    intro l n hn hl
    have : 0 < l.length := List.length_pos.mpr hl
    simp only [List.length_drop]
    omega
  split at h
  · rename_i advance token heq
    simp only [Prod.mk.injEq, true_and] at h
    subst h
    simp only
    have hne : scanner.input ≠ [] := by
      intro hnil
      simp [hnil, MaxScanTokenSize] at heq
    split at heq
    · simp at heq
    · split at heq
      · simp only [Prod.mk.injEq] at heq
        exact hpos _ _ (by omega) hne
      · split at heq
        · rename_i hEOF
          simp only [Prod.mk.injEq] at heq
          have hlen : 0 < advance := by
            have : 0 < scanner.input.length := List.length_pos.mpr hne
            have hadv := heq.1
            simp only [List.length_take] at hadv
            simp only [decide_eq_true_eq, MaxScanTokenSize] at hEOF
            simp only [MaxScanTokenSize] at hadv
            omega
          exact hpos _ _ hlen hne
        · simp at heq
  · simp at h

/-- Function `extractPackages` (lines 80-112).  Returns how the call ends and the
value of the global `systemComponents` afterwards. -/
def extractPackages (files : FileMap) (systemComponents : List SystemComponents) :
    Outcome × List SystemComponents :=
  match files machineIdFileName with
  | none => (Outcome.error GoError.machineIDNotFound, systemComponents)
  | some buff =>
    let systemID := buff
    match files packageListFileName with
    | none => (Outcome.error GoError.packageListNotFound, systemComponents)
    | some buff =>
      match scanLoop (NewScanner buff) [] with
      | Except.error e => (Outcome.error e, systemComponents)
      | Except.ok components =>
        (Outcome.ok, systemComponents ++ [⟨systemID, components⟩])

/-! ## Ingestion (`handleFileUpload`, lines 125 and 144-155) -/

/-- The part of `handleFileUpload` that follows the opening of the upload: a fresh
`filesInMemory`, `untar`, then `extractPackages`.  `Outcome.ok` stands for the success
response, `Outcome.error` for the `http.Error` response carrying that error, and a
panic leaves the handler.  The second component is `systemComponents` afterwards. -/
def handleFileUpload (reader : TarReader) (systemComponents : List SystemComponents) :
    Outcome × List SystemComponents :=
  match untar reader FileMap.empty with
  | (Outcome.ok, filesInMemory) => extractPackages filesInMemory systemComponents
  | (Outcome.error e, _) => (Outcome.error e, systemComponents)
  | (Outcome.panicIndexOutOfRange, _) => (Outcome.panicIndexOutOfRange, systemComponents)

/-! ## Example inputs -/

/-- A manifest line with the ten fields of a record. -/
def bashLine : Bytes :=
  bytesOf "\x7b\"name\":\"bash\",\"epoch\":\"(none)\",\"version\":\"5.1.8\",\"release\":\"6.el9\",\"arch\":\"x86_64\",\"installtime\":\"1700000000\",\"buildtime\":\"1690000000\",\"vendor\":\"Red Hat\",\"buildhost\":\"build.example.com\",\"sigpgp\":\"RSA/SHA256\"\x7d"

/-- The component `bashLine` decodes to. -/
def bashComponent : Component :=
  ⟨bytesOf "bash", bytesOf "(none)", bytesOf "5.1.8", bytesOf "6.el9", bytesOf "x86_64",
    bytesOf "1700000000", bytesOf "1690000000", bytesOf "Red Hat", bytesOf "build.example.com",
    bytesOf "RSA/SHA256"⟩

/-- A second manifest line, with one field. -/
def zlibLine : Bytes := bytesOf "\x7b\"name\":\"zlib\"\x7d"

/-- The component `zlibLine` decodes to. -/
def zlibComponent : Component := { Component.zero with Name := bytesOf "zlib" }

/-- The content of an identifier file, with its trailing newline. -/
def exampleID : Bytes := bytesOf "4c7a1f0e\n"

/-- The file set with an identifier file and a manifest at the paths `extractPackages`
looks up. -/
def filesWith (id manifest : Bytes) : FileMap :=
  (FileMap.empty.set machineIdFileName id).set packageListFileName manifest

/-- A catalog that already holds an entry for `exampleID`. -/
def exampleCatalog : List SystemComponents := [⟨exampleID, [zlibComponent]⟩]

/-- An archive with a wrapper directory `up/`: a directory entry, the identifier file,
a symbolic link, an earlier copy of the manifest and the manifest. -/
def exampleEntries (manifest : Bytes) : List (Header × Bytes) :=
  [(⟨TypeDir, bytesOf "up/"⟩, []),
   (⟨TypeReg, bytesOf "up/" ++ machineIdFileName⟩, exampleID),
   (⟨50, bytesOf "up/link"⟩, []),
   (⟨TypeReg, bytesOf "up/" ++ packageListFileName⟩, bytesOf "stale"),
   (⟨TypeReg, bytesOf "up/" ++ packageListFileName⟩, manifest)]

/-- The file set with an identifier file and a manifest at the two paths the
specification names, which lack the leading `data/`. -/
def specFiles (id manifest : Bytes) : FileMap :=
  (FileMap.empty.set (bytesOf "etc/insights-client/machine-id") id).set
    (bytesOf "insights_commands/rpm_-qa_--qf_name_NAME_epoch_EPOCH_version_VERSION_release_RELEASE_arch_ARCH_installtime_INSTALLTIME_date_buildtime_BUILDTIME_vendor_VENDOR_buildhost_BUILDHOST_sigpgp_SIGPGP_pgpsig_n")
    manifest

/-! ## Notions used in the proofs about the JSON scanner -/

/-- What `json.Unmarshal` gets out of a scanner at the end of the text. -/
def finishParse (s : JSONScanner) : Option Parsed :=
  match s.eof with
  | none => none
  | some s2 => some ⟨s2.kind, s2.members⟩

/-- The flag `endTop` is set only together with the step `stateEndTop`. -/
def JSONScanner.Consistent (s : JSONScanner) : Prop :=
  s.endTop = true → s.step = StepState.endTop

/-! ## Specification vocabulary -/

/-- The archive whose `Next()` delivers the given entries, every content readable. -/
def archiveOf (entries : List (Header × Bytes)) : TarReader :=
  entries.map fun e => TarItem.entry e.1 (some e.2)

/-- `k` is what follows the first `'/'` of the path `name`. -/
def StrippedPath (name k : Bytes) : Prop :=
  ∃ wrapper, slash ∉ wrapper ∧ name = wrapper ++ slash :: k

/-- No regular-file entry of `entries` has `k` as its path after the first `'/'`. -/
def NoRegular (entries : List (Header × Bytes)) (k : Bytes) : Prop :=
  ∀ e ∈ entries, e.1.Typeflag = TypeReg → ¬ StrippedPath e.1.Name k

/-- `b` is the content of the last regular-file entry of `entries` whose path after
its first `'/'` is `k`. -/
def LastRegular (entries : List (Header × Bytes)) (k b : Bytes) : Prop :=
  ∃ before header after, entries = before ++ (header, b) :: after ∧
    header.Typeflag = TypeReg ∧ StrippedPath header.Name k ∧ NoRegular after k

/-- The lines of a manifest text, `cur` being the part of the current line already
read: a line ends at each newline, and text after the last newline is a final line. -/
def splitLines : Bytes → Bytes → List Bytes
  | [], cur => if cur = [] then [] else [cur]
  | b :: bs, cur => if b = 10 then cur :: splitLines bs [] else splitLines bs (cur ++ [b])

/-- The newline-delimited lines of a manifest, newlines removed. -/
def manifestLines (data : Bytes) : List Bytes := splitLines data []

/-- Decodes every line in order; `none` as soon as one line does not decode. -/
def decodeLines : List Bytes → Option (List Component)
  | [] => some []
  | l :: ls =>
    match jsonUnmarshal l with
    | none => none
    | some c => (decodeLines ls).map fun cs => c :: cs

/-- Whether a line fits the scanner's buffer together with its newline. -/
def fitsBuffer (l : Bytes) : Bool := decide (l.length < MaxScanTokenSize)

/-- The result of the scan loop for the decoding of the lines it reads, started with
`components`. -/
def loopResult (components : List Component) :
    Option (List Component) → Except GoError (List Component)
  | none => Except.error GoError.unmarshalingComponent
  | some cs => Except.ok (components ++ cs)

/-! ## Lemmas on `untar` -/

theorem indexFrom_none (s : Bytes) (c i : Nat) : indexFrom s c i = none ↔ c ∉ s := by
  induction s generalizing i with
  | nil => simp [indexFrom]
  | cons b bs ih =>
    by_cases h : b = c
    · simp [indexFrom, h]
    · have h2 : ¬ c = b := fun e => h e.symm
      simp [indexFrom, h, h2, ih]

theorem indexFrom_append (pre post : Bytes) (c i : Nat) (h : c ∉ pre) :
    indexFrom (pre ++ c :: post) c i = some (i + pre.length) := by
  induction pre generalizing i with
  | nil => simp [indexFrom]
  | cons b bs ih =>
    have hb : ¬ b = c := fun e => h (by simp [e])
    have hbs : c ∉ bs := fun e => h (by simp [e])
    have step : indexFrom (b :: (bs ++ c :: post)) c i = indexFrom (bs ++ c :: post) c (i + 1) := by
      simp only [indexFrom]
      rw [if_neg hb]
    rw [List.cons_append, step, ih (i + 1) hbs, List.length_cons]
    congr 1
    omega

theorem exists_first_split (s : Bytes) (c : Nat) (h : c ∈ s) :
    ∃ pre post, c ∉ pre ∧ s = pre ++ c :: post := by
  induction s with
  | nil => simp at h
  | cons b bs ih =>
    by_cases hb : b = c
    · exact ⟨[], bs, by simp, by simp [hb]⟩
    · have hbs : c ∈ bs := by
        rcases List.mem_cons.mp h with e | e
        · exact absurd e.symm hb
        · exact e
      obtain ⟨pre, post, hpre, hs⟩ := ih hbs
      refine ⟨b :: pre, post, ?_, by simp [hs]⟩
      intro hmem
      rcases List.mem_cons.mp hmem with e | e
      · exact hb e.symm
      · exact hpre e

theorem SplitAfterN_two_of_not_mem (name : Bytes) (h : slash ∉ name) :
    SplitAfterN name slash 2 = [name] := by
  have hidx : IndexByte name slash = none := (indexFrom_none name slash 0).mpr h
  simp [SplitAfterN, hidx]

theorem SplitAfterN_two_of_split (wrapper k : Bytes) (h : slash ∉ wrapper) :
    SplitAfterN (wrapper ++ slash :: k) slash 2 = [wrapper ++ [slash], k] := by
  have hidx : IndexByte (wrapper ++ slash :: k) slash = some wrapper.length := by
    simpa [IndexByte] using indexFrom_append wrapper k slash 0 h
  have htake : List.take (wrapper.length + 1) (wrapper ++ slash :: k) = wrapper ++ [slash] := by
    simp [List.take_append]
  have hdrop : List.drop (wrapper.length + 1) (wrapper ++ slash :: k) = k := by
    simp [List.drop_append]
  simp [SplitAfterN, hidx, htake, hdrop]

theorem StrippedPath_unique (name k k2 : Bytes) (h : StrippedPath name k)
    (h2 : StrippedPath name k2) : k = k2 := by
  obtain ⟨w, hw, hn⟩ := h
  obtain ⟨w2, hw2, hn2⟩ := h2
  have e1 := SplitAfterN_two_of_split w k hw
  have e2 := SplitAfterN_two_of_split w2 k2 hw2
  rw [← hn] at e1
  rw [← hn2, e1] at e2
  simp only [List.cons.injEq, and_true] at e2
  exact e2.2

theorem stripped_lookup (name : Bytes) (h : slash ∈ name) :
    ∃ k, (SplitAfterN name slash 2)[1]? = some k ∧ StrippedPath name k := by
  obtain ⟨w, k, hw, hn⟩ := exists_first_split name slash h
  refine ⟨k, ?_, w, hw, hn⟩
  rw [hn, SplitAfterN_two_of_split w k hw]
  rfl

theorem NoRegular_cons (e : Header × Bytes) (es : List (Header × Bytes)) (k : Bytes) :
    NoRegular (e :: es) k ↔
      (e.1.Typeflag = TypeReg → ¬ StrippedPath e.1.Name k) ∧ NoRegular es k := by
  simp [NoRegular]

theorem LastRegular_nil (k b : Bytes) : ¬ LastRegular [] k b := by
  rintro ⟨before, header, after, h, _⟩
  simp at h

theorem LastRegular_cons (e : Header × Bytes) (es : List (Header × Bytes)) (k b : Bytes) :
    LastRegular (e :: es) k b ↔
      LastRegular es k b ∨
        (e.1.Typeflag = TypeReg ∧ StrippedPath e.1.Name k ∧ e.2 = b ∧ NoRegular es k) := by
  constructor
  · rintro ⟨before, header, after, h, hreg, hpath, hno⟩
    cases before with
    | nil =>
      simp only [List.nil_append, List.cons.injEq] at h
      obtain ⟨he, hes⟩ := h
      right
      subst he
      subst hes
      exact ⟨hreg, hpath, rfl, hno⟩
    | cons x xs =>
      simp only [List.cons_append, List.cons.injEq] at h
      left
      exact ⟨xs, header, after, h.2, hreg, hpath, hno⟩
  · rintro (⟨before, header, after, h, hreg, hpath, hno⟩ | ⟨hreg, hpath, hb, hno⟩)
    · exact ⟨e :: before, header, after, by simp [h], hreg, hpath, hno⟩
    · refine ⟨[], e.1, es, ?_, hreg, hpath, hno⟩
      rw [← hb]
      rfl

/-- What `untar` does on an archive of readable entries whose regular-file paths all
contain a separator, from any initial map. -/
theorem untar_archiveOf (entries : List (Header × Bytes)) :
    ∀ (m : FileMap), (∀ e ∈ entries, e.1.Typeflag = TypeReg → slash ∈ e.1.Name) →
      (untar (archiveOf entries) m).1 = Outcome.ok ∧
      ∀ k b, (untar (archiveOf entries) m).2 k = some b ↔
        (LastRegular entries k b ∨ (NoRegular entries k ∧ m k = some b)) := by
  induction entries with
  | nil =>
    intro m _
    refine ⟨rfl, fun k b => ?_⟩
    simp [archiveOf, untar, LastRegular_nil, NoRegular]
  | cons e es ih =>
    intro m hsep
    have hsep2 : ∀ x ∈ es, x.1.Typeflag = TypeReg → slash ∈ x.1.Name :=
      fun x hx => hsep x (List.mem_cons_of_mem _ hx)
    have hunfold : archiveOf (e :: es) = TarItem.entry e.1 (some e.2) :: archiveOf es := rfl
    rw [hunfold]
    by_cases hdir : e.1.Typeflag = TypeDir
    · have hnreg : ¬ e.1.Typeflag = TypeReg := by
        rw [hdir]
        decide
      have hu : untar (TarItem.entry e.1 (some e.2) :: archiveOf es) m = untar (archiveOf es) m := by
        simp [untar, hdir]
      rw [hu]
      refine ⟨(ih m hsep2).1, fun k b => ?_⟩
      rw [(ih m hsep2).2 k b, LastRegular_cons, NoRegular_cons]
      simp [hnreg]
    · by_cases hreg : e.1.Typeflag = TypeReg
      · obtain ⟨k0, hk0, hpath0⟩ := stripped_lookup e.1.Name (hsep e (List.mem_cons_self _ _) hreg)
        have hu : untar (TarItem.entry e.1 (some e.2) :: archiveOf es) m =
            untar (archiveOf es) (m.set k0 e.2) := by
          simp only [untar]
          rw [if_neg hdir, if_pos hreg]
          simp only [hk0]
        rw [hu]
        refine ⟨(ih _ hsep2).1, fun k b => ?_⟩
        rw [(ih _ hsep2).2 k b, LastRegular_cons, NoRegular_cons]
        by_cases hk : k = k0
        · subst hk
          simp [FileMap.set, hreg, hpath0]
          tauto
        · have hnp : ¬ StrippedPath e.1.Name k :=
            fun hp => hk (StrippedPath_unique _ _ _ hp hpath0)
          simp [FileMap.set, hk, hnp]
      · have hu : untar (TarItem.entry e.1 (some e.2) :: archiveOf es) m = untar (archiveOf es) m := by
          simp [untar, hdir, hreg]
        rw [hu]
        refine ⟨(ih m hsep2).1, fun k b => ?_⟩
        rw [(ih m hsep2).2 k b, LastRegular_cons, NoRegular_cons]
        simp [hreg]

/-! ## Lemmas on `json.Unmarshal`: a trailing carriage return is insignificant -/

theorem note_endTop (s : JSONScanner) (k : Kind) : (s.note k).endTop = s.endTop := by
  unfold JSONScanner.note
  split <;> rfl

theorem popParseState_consistent (s : JSONScanner) (h0 : s.endTop = false) :
    s.popParseState.Consistent := by
  unfold JSONScanner.popParseState JSONScanner.Consistent
  split <;> simp [h0]

theorem pushParseState_consistent (s s2 : JSONScanner) (p : ParseState) (next : StepState)
    (h0 : s.endTop = false) (h : s.pushParseState p next = some s2) : s2.Consistent := by
  unfold JSONScanner.pushParseState at h
  split at h
  · simp only [Option.some.injEq] at h
    subst h
    simp [JSONScanner.Consistent, h0]
  · simp at h

theorem stateEndValue_consistent (s s2 : JSONScanner) (c : Nat) (h0 : s.endTop = false)
    (h : stateEndValue s c = some s2) : s2.Consistent := by
  unfold stateEndValue at h
  split at h
  · unfold stateEndTop at h
    split at h
    · simp only [Option.some.injEq] at h
      subst h
      simp [JSONScanner.Consistent]
    · simp at h
  · split at h
    · simp only [Option.some.injEq] at h
      subst h
      simp [JSONScanner.Consistent, h0]
    · split at h <;> (repeat' split at h) <;>
        first
        | (simp only [Option.some.injEq] at h
           subst h
           first
           | exact popParseState_consistent _ h0
           | simp [JSONScanner.Consistent, h0])
        | simp at h


theorem stateInString_consistent (s s2 : JSONScanner) (c : Nat) (h0 : s.endTop = false)
    (h : stateInString s c = some s2) : s2.Consistent := by
  unfold stateInString at h
  try unfold JSONScanner.closeString at h
  repeat' split at h
  all_goals
    first
    | exact stateEndValue_consistent _ _ _ (by simp [h0]) h
    | exact pushParseState_consistent _ _ _ _ (by simp [note_endTop, h0]) h
    | (simp only [Option.some.injEq] at h
       subst h
       simp [JSONScanner.Consistent, note_endTop, h0])
    | simp at h

theorem stateInStringEsc_consistent (s s2 : JSONScanner) (c : Nat) (h0 : s.endTop = false)
    (h : stateInStringEsc s c = some s2) : s2.Consistent := by
  unfold stateInStringEsc at h
  try unfold JSONScanner.closeString at h
  repeat' split at h
  all_goals
    first
    | exact stateEndValue_consistent _ _ _ (by simp [h0]) h
    | exact pushParseState_consistent _ _ _ _ (by simp [note_endTop, h0]) h
    | (simp only [Option.some.injEq] at h
       subst h
       simp [JSONScanner.Consistent, note_endTop, h0])
    | simp at h

theorem state0_consistent (s s2 : JSONScanner) (c : Nat) (h0 : s.endTop = false)
    (h : state0 s c = some s2) : s2.Consistent := by
  unfold state0 at h
  try unfold JSONScanner.closeString at h
  repeat' split at h
  all_goals
    first
    | exact stateEndValue_consistent _ _ _ (by simp [h0]) h
    | exact pushParseState_consistent _ _ _ _ (by simp [note_endTop, h0]) h
    | (simp only [Option.some.injEq] at h
       subst h
       simp [JSONScanner.Consistent, note_endTop, h0])
    | simp at h

theorem state1_consistent (s s2 : JSONScanner) (c : Nat) (h0 : s.endTop = false)
    (h : state1 s c = some s2) : s2.Consistent := by
  unfold state1 at h
  try unfold JSONScanner.closeString at h
  repeat' split at h
  all_goals
    first
    | exact state0_consistent _ _ _ h0 h
    | exact stateEndValue_consistent _ _ _ (by simp [h0]) h
    | exact pushParseState_consistent _ _ _ _ (by simp [note_endTop, h0]) h
    | (simp only [Option.some.injEq] at h
       subst h
       simp [JSONScanner.Consistent, note_endTop, h0])
    | simp at h

theorem stateNeg_consistent (s s2 : JSONScanner) (c : Nat) (h0 : s.endTop = false)
    (h : stateNeg s c = some s2) : s2.Consistent := by
  unfold stateNeg at h
  try unfold JSONScanner.closeString at h
  repeat' split at h
  all_goals
    first
    | exact stateEndValue_consistent _ _ _ (by simp [h0]) h
    | exact pushParseState_consistent _ _ _ _ (by simp [note_endTop, h0]) h
    | (simp only [Option.some.injEq] at h
       subst h
       simp [JSONScanner.Consistent, note_endTop, h0])
    | simp at h

theorem stateDot_consistent (s s2 : JSONScanner) (c : Nat) (h0 : s.endTop = false)
    (h : stateDot s c = some s2) : s2.Consistent := by
  unfold stateDot at h
  try unfold JSONScanner.closeString at h
  repeat' split at h
  all_goals
    first
    | exact stateEndValue_consistent _ _ _ (by simp [h0]) h
    | exact pushParseState_consistent _ _ _ _ (by simp [note_endTop, h0]) h
    | (simp only [Option.some.injEq] at h
       subst h
       simp [JSONScanner.Consistent, note_endTop, h0])
    | simp at h

theorem stateDot0_consistent (s s2 : JSONScanner) (c : Nat) (h0 : s.endTop = false)
    (h : stateDot0 s c = some s2) : s2.Consistent := by
  unfold stateDot0 at h
  try unfold JSONScanner.closeString at h
  repeat' split at h
  all_goals
    first
    | exact stateEndValue_consistent _ _ _ (by simp [h0]) h
    | exact pushParseState_consistent _ _ _ _ (by simp [note_endTop, h0]) h
    | (simp only [Option.some.injEq] at h
       subst h
       simp [JSONScanner.Consistent, note_endTop, h0])
    | simp at h

theorem stateESign_consistent (s s2 : JSONScanner) (c : Nat) (h0 : s.endTop = false)
    (h : stateESign s c = some s2) : s2.Consistent := by
  unfold stateESign at h
  try unfold JSONScanner.closeString at h
  repeat' split at h
  all_goals
    first
    | exact stateEndValue_consistent _ _ _ (by simp [h0]) h
    | exact pushParseState_consistent _ _ _ _ (by simp [note_endTop, h0]) h
    | (simp only [Option.some.injEq] at h
       subst h
       simp [JSONScanner.Consistent, note_endTop, h0])
    | simp at h

theorem stateE_consistent (s s2 : JSONScanner) (c : Nat) (h0 : s.endTop = false)
    (h : stateE s c = some s2) : s2.Consistent := by
  unfold stateE at h
  try unfold JSONScanner.closeString at h
  repeat' split at h
  all_goals
    first
    | exact stateESign_consistent _ _ _ h0 h
    | exact stateEndValue_consistent _ _ _ (by simp [h0]) h
    | exact pushParseState_consistent _ _ _ _ (by simp [note_endTop, h0]) h
    | (simp only [Option.some.injEq] at h
       subst h
       simp [JSONScanner.Consistent, note_endTop, h0])
    | simp at h

theorem stateE0_consistent (s s2 : JSONScanner) (c : Nat) (h0 : s.endTop = false)
    (h : stateE0 s c = some s2) : s2.Consistent := by
  unfold stateE0 at h
  try unfold JSONScanner.closeString at h
  repeat' split at h
  all_goals
    first
    | exact stateEndValue_consistent _ _ _ (by simp [h0]) h
    | exact pushParseState_consistent _ _ _ _ (by simp [note_endTop, h0]) h
    | (simp only [Option.some.injEq] at h
       subst h
       simp [JSONScanner.Consistent, note_endTop, h0])
    | simp at h

theorem stateBeginValue_consistent (s s2 : JSONScanner) (c : Nat) (h0 : s.endTop = false)
    (h : stateBeginValue s c = some s2) : s2.Consistent := by
  unfold stateBeginValue at h
  try unfold JSONScanner.closeString at h
  repeat' split at h
  all_goals
    first
    | exact stateEndValue_consistent _ _ _ (by simp [h0]) h
    | exact pushParseState_consistent _ _ _ _ (by simp [note_endTop, h0]) h
    | (simp only [Option.some.injEq] at h
       subst h
       simp [JSONScanner.Consistent, note_endTop, h0])
    | simp at h

theorem stateBeginValueOrEmpty_consistent (s s2 : JSONScanner) (c : Nat) (h0 : s.endTop = false)
    (h : stateBeginValueOrEmpty s c = some s2) : s2.Consistent := by
  unfold stateBeginValueOrEmpty at h
  try unfold JSONScanner.closeString at h
  repeat' split at h
  all_goals
    first
    | exact stateBeginValue_consistent _ _ _ h0 h
    | exact stateEndValue_consistent _ _ _ (by simp [h0]) h
    | exact pushParseState_consistent _ _ _ _ (by simp [note_endTop, h0]) h
    | (simp only [Option.some.injEq] at h
       subst h
       simp [JSONScanner.Consistent, note_endTop, h0])
    | simp at h

theorem stateBeginString_consistent (s s2 : JSONScanner) (c : Nat) (h0 : s.endTop = false)
    (h : stateBeginString s c = some s2) : s2.Consistent := by
  unfold stateBeginString at h
  try unfold JSONScanner.closeString at h
  repeat' split at h
  all_goals
    first
    | exact stateEndValue_consistent _ _ _ (by simp [h0]) h
    | exact pushParseState_consistent _ _ _ _ (by simp [note_endTop, h0]) h
    | (simp only [Option.some.injEq] at h
       subst h
       simp [JSONScanner.Consistent, note_endTop, h0])
    | simp at h

theorem stateBeginStringOrEmpty_consistent (s s2 : JSONScanner) (c : Nat) (h0 : s.endTop = false)
    (h : stateBeginStringOrEmpty s c = some s2) : s2.Consistent := by
  unfold stateBeginStringOrEmpty at h
  try unfold JSONScanner.closeString at h
  repeat' split at h
  all_goals
    first
    | exact stateBeginString_consistent _ _ _ h0 h
    | exact stateEndValue_consistent _ _ _ (by simp [h0]) h
    | exact pushParseState_consistent _ _ _ _ (by simp [note_endTop, h0]) h
    | (simp only [Option.some.injEq] at h
       subst h
       simp [JSONScanner.Consistent, note_endTop, h0])
    | simp at h

theorem stateInStringEscU_consistent (s s2 : JSONScanner) (c : Nat) (next : StepState)
    (h0 : s.endTop = false) (h : stateInStringEscU s c next = some s2) : s2.Consistent := by
  unfold stateInStringEscU at h
  split at h
  · simp only [Option.some.injEq] at h
    subst h
    simp [JSONScanner.Consistent, h0]
  · simp at h

theorem stateLiteral_consistent (s s2 : JSONScanner) (c expected : Nat) (next : StepState)
    (h0 : s.endTop = false) (h : stateLiteral s c expected next = some s2) : s2.Consistent := by
  unfold stateLiteral at h
  split at h
  · simp only [Option.some.injEq] at h
    subst h
    simp [JSONScanner.Consistent, h0]
  · simp at h

theorem next_consistent (s s2 : JSONScanner) (c : Nat) (hs : s.Consistent)
    (h : s.next c = some s2) : s2.Consistent := by
  cases h0 : s.endTop with
  | true =>
    have hstep := hs h0
    unfold JSONScanner.next at h
    rw [hstep] at h
    simp only [stateEndTop] at h
    split at h
    · simp only [Option.some.injEq] at h
      subst h
      exact hs
    · simp at h
  | false =>
    unfold JSONScanner.next at h
    split at h
    all_goals
      first
      | exact stateBeginValueOrEmpty_consistent _ _ _ h0 h
      | exact stateBeginValue_consistent _ _ _ h0 h
      | exact stateBeginStringOrEmpty_consistent _ _ _ h0 h
      | exact stateBeginString_consistent _ _ _ h0 h
      | exact stateEndValue_consistent _ _ _ h0 h
      | exact stateInString_consistent _ _ _ h0 h
      | exact stateInStringEsc_consistent _ _ _ h0 h
      | exact stateInStringEscU_consistent _ _ _ _ h0 h
      | exact stateNeg_consistent _ _ _ h0 h
      | exact state1_consistent _ _ _ h0 h
      | exact state0_consistent _ _ _ h0 h
      | exact stateDot_consistent _ _ _ h0 h
      | exact stateDot0_consistent _ _ _ h0 h
      | exact stateE_consistent _ _ _ h0 h
      | exact stateESign_consistent _ _ _ h0 h
      | exact stateE0_consistent _ _ _ h0 h
      | exact stateLiteral_consistent _ _ _ _ _ h0 h
      | (unfold stateEndTop at h
         split at h
         · simp only [Option.some.injEq] at h
           subst h
           exact hs
         · simp at h)


theorem next_CR (s : JSONScanner) (hs : s.Consistent) :
    (match s.next 13 with
      | none => none
      | some s2 => finishParse s2) = finishParse s := by
  obtain ⟨step, ps, endTop, kind, members, key, text⟩ := s
  cases endTop with
  | true =>
    have hstep := hs rfl
    simp only at hstep
    subst hstep
    simp [finishParse, JSONScanner.eof, JSONScanner.next, stateEndTop, isSpace]
  | false =>
    cases step <;> rcases ps with _ | ⟨_ | _ | _, rest⟩ <;>
      simp [finishParse, JSONScanner.eof, JSONScanner.next, stateBeginValueOrEmpty,
        stateBeginValue, stateBeginStringOrEmpty, stateBeginString, stateEndValue, stateEndTop,
        stateInString, stateInStringEsc, stateInStringEscU, stateNeg, state1, state0, stateDot,
        stateDot0, stateE, stateESign, stateE0, stateLiteral, isSpace, isDigit, isHex, isEscape]

theorem run_append (a b : Bytes) (s : JSONScanner) :
    JSONScanner.run (a ++ b) s =
      match JSONScanner.run a s with
      | none => none
      | some s2 => JSONScanner.run b s2 := by
  induction a generalizing s with
  | nil => simp [JSONScanner.run]
  | cons c cs ih =>
    simp only [List.cons_append, JSONScanner.run]
    cases s.next c with
    | none => rfl
    | some s2 => exact ih s2

theorem run_consistent (data : Bytes) (s s2 : JSONScanner) (hs : s.Consistent)
    (h : JSONScanner.run data s = some s2) : s2.Consistent := by
  induction data generalizing s with
  | nil =>
    simp only [JSONScanner.run, Option.some.injEq] at h
    subst h
    exact hs
  | cons c cs ih =>
    simp only [JSONScanner.run] at h
    cases hn : s.next c with
    | none => simp [hn] at h
    | some s3 =>
      rw [hn] at h
      exact ih s3 (next_consistent s s3 c hs hn) h

theorem parseJSON_append_CR (data : Bytes) : parseJSON (data ++ [13]) = parseJSON data := by
  have hfin : ∀ d, parseJSON d =
      match JSONScanner.run d JSONScanner.reset with
      | none => none
      | some s => finishParse s := by
    intro d
    unfold parseJSON finishParse
    rfl
  rw [hfin, hfin, run_append]
  cases hr : JSONScanner.run data JSONScanner.reset with
  | none => rfl
  | some s =>
    have hs : s.Consistent :=
      run_consistent data _ s (by simp [JSONScanner.Consistent, JSONScanner.reset]) hr
    simp only [JSONScanner.run]
    have := next_CR s hs
    cases hn : s.next 13 with
    | none =>
      rw [hn] at this
      exact this
    | some s2 =>
      rw [hn] at this
      exact this

theorem jsonUnmarshal_dropCR (data : Bytes) : jsonUnmarshal (dropCR data) = jsonUnmarshal data := by
  unfold dropCR
  split
  · rename_i h
    have hd : data = data.dropLast ++ [13] := by
      have hne : data ≠ [] := by
        intro e
        simp [e] at h
      have := List.dropLast_append_getLast hne
      rw [List.getLast?_eq_getLast _ hne] at h
      simp only [Option.some.injEq] at h
      rw [h] at this
      exact this.symm
    have hp : parseJSON data = parseJSON data.dropLast := by
      conv_lhs => rw [hd]
      exact parseJSON_append_CR _
    simp [jsonUnmarshal, hp]
  · rfl

/-! ## Lemmas on the scanner and the loop of `extractPackages` -/

theorem Scan_nil (t : Bytes) : Scanner.Scan ⟨[], t⟩ = (false, ⟨[], []⟩) := by
  simp [Scanner.Scan, ScanLines, MaxScanTokenSize]

theorem Scan_line (line rest t : Bytes) (hnl : 10 ∉ line)
    (hlen : line.length < MaxScanTokenSize) :
    Scanner.Scan ⟨line ++ 10 :: rest, t⟩ = (true, ⟨rest, dropCR line⟩) := by
  obtain ⟨n, hn⟩ : ∃ n, MaxScanTokenSize - line.length = n + 1 :=
    ⟨MaxScanTokenSize - line.length - 1, by omega⟩
  have htake : List.take MaxScanTokenSize (line ++ 10 :: rest) = line ++ 10 :: List.take n rest := by
    rw [List.take_append_eq_append_take, List.take_of_length_le (by omega), hn, List.take_succ_cons]
  have hidx : IndexByte (line ++ 10 :: List.take n rest) 10 = some line.length := by
    simpa [IndexByte] using indexFrom_append line (List.take n rest) 10 0 hnl
  have hdrop : List.drop (line.length + 1) (line ++ 10 :: rest) = rest := by
    simp [List.drop_append]
  simp only [Scanner.Scan, ScanLines, htake, hidx]
  simp [hdrop]

theorem Scan_last (data t : Bytes) (hnl : 10 ∉ data) (hne : data ≠ [])
    (hlen : data.length < MaxScanTokenSize) :
    Scanner.Scan ⟨data, t⟩ = (true, ⟨[], dropCR data⟩) := by
  have htake : List.take MaxScanTokenSize data = data := List.take_of_length_le (by omega)
  have hidx : IndexByte data 10 = none := (indexFrom_none data 10 0).mpr hnl
  simp only [Scanner.Scan, ScanLines, htake, hidx]
  simp [hne, hlen]

theorem Scan_tooLong (data t : Bytes) (hnl : 10 ∉ data.take MaxScanTokenSize)
    (hlen : MaxScanTokenSize ≤ data.length) :
    Scanner.Scan ⟨data, t⟩ = (false, ⟨data, []⟩) := by
  have hidx : IndexByte (data.take MaxScanTokenSize) 10 = none :=
    (indexFrom_none _ 10 0).mpr hnl
  have hnot : ¬ data.length < MaxScanTokenSize := by omega
  simp only [Scanner.Scan, ScanLines, hidx]
  simp [hnot]

theorem scanLoop_of_Scan_false (s s2 : Scanner) (components : List Component)
    (h : s.Scan = (false, s2)) : scanLoop s components = Except.ok components := by
  rw [scanLoop]
  split
  · rfl
  · rename_i heq
    rw [h] at heq
    simp at heq

theorem scanLoop_of_Scan_true (s next : Scanner) (components : List Component)
    (h : s.Scan = (true, next)) :
    scanLoop s components =
      match jsonUnmarshal next.tok with
      | none => Except.error GoError.unmarshalingComponent
      | some c => scanLoop next (components ++ [c]) := by
  rw [scanLoop]
  split
  · rename_i heq
    rw [h] at heq
    simp at heq
  · rename_i heq
    rw [h] at heq
    simp only [Prod.mk.injEq, true_and] at heq
    subst heq
    rfl

theorem splitLines_line (line rest cur : Bytes) (hnl : 10 ∉ line) :
    splitLines (line ++ 10 :: rest) cur = (cur ++ line) :: splitLines rest [] := by
  induction line generalizing cur with
  | nil => simp [splitLines]
  | cons b bs ih =>
    have hb : ¬ b = 10 := fun e => hnl (by simp [e])
    have hbs : 10 ∉ bs := fun e => hnl (by simp [e])
    have step : splitLines (b :: (bs ++ 10 :: rest)) cur =
        splitLines (bs ++ 10 :: rest) (cur ++ [b]) := by
      simp only [splitLines]
      rw [if_neg hb]
    rw [List.cons_append, step, ih (cur ++ [b]) hbs]
    simp

theorem splitLines_last (line cur : Bytes) (hnl : 10 ∉ line) :
    splitLines line cur = if cur ++ line = [] then [] else [cur ++ line] := by
  induction line generalizing cur with
  | nil => simp [splitLines]
  | cons b bs ih =>
    have hb : ¬ b = 10 := fun e => hnl (by simp [e])
    have hbs : 10 ∉ bs := fun e => hnl (by simp [e])
    simp only [splitLines]
    rw [if_neg hb, ih (cur ++ [b]) hbs]
    simp

theorem manifestLines_line (line rest : Bytes) (hnl : 10 ∉ line) :
    manifestLines (line ++ 10 :: rest) = line :: manifestLines rest := by
  simp [manifestLines, splitLines_line line rest [] hnl]

theorem manifestLines_last (data : Bytes) (hnl : 10 ∉ data) (hne : data ≠ []) :
    manifestLines data = [data] := by
  simp [manifestLines, splitLines_last data [] hnl, hne]

/-- The scan loop decodes, in order, the lines of the text that precede the first line
too long for the scanner's buffer, and stops there without an error. -/
theorem scanLoop_eq (n : Nat) :
    ∀ (data t : Bytes) (components : List Component), data.length ≤ n →
      scanLoop ⟨data, t⟩ components =
        loopResult components (decodeLines ((manifestLines data).takeWhile fitsBuffer)) := by
  induction n with
  | zero =>
    intro data t components hlen
    have hnil : data = [] := List.length_eq_zero.mp (by omega)
    subst hnil
    rw [scanLoop_of_Scan_false _ _ _ (Scan_nil t)]
    simp [manifestLines, splitLines, decodeLines, loopResult]
  | succ n ih =>
    intro data t components hlen
    by_cases hmem : 10 ∈ data
    · obtain ⟨line, rest, hnl, hdata⟩ := exists_first_split data 10 hmem
      subst hdata
      rw [manifestLines_line line rest hnl]
      by_cases hfit : line.length < MaxScanTokenSize
      · have hrest : rest.length ≤ n := by
          simp only [List.length_append, List.length_cons] at hlen
          omega
        rw [scanLoop_of_Scan_true _ _ _ (Scan_line line rest t hnl hfit)]
        have htw : List.takeWhile fitsBuffer (line :: manifestLines rest) =
            line :: List.takeWhile fitsBuffer (manifestLines rest) := by
          simp [List.takeWhile, fitsBuffer, hfit]
        rw [htw]
        simp only [decodeLines]
        rw [jsonUnmarshal_dropCR]
        cases hdec : jsonUnmarshal line with
        | none => simp [loopResult]
        | some c =>
          simp only
          rw [ih rest (dropCR line) (components ++ [c]) hrest]
          cases decodeLines (List.takeWhile fitsBuffer (manifestLines rest)) with
          | none => simp [loopResult]
          | some cs => simp [loopResult]
      · have hge : MaxScanTokenSize ≤ line.length := by omega
        have htake : 10 ∉ List.take MaxScanTokenSize (line ++ 10 :: rest) := by
          rw [List.take_append_of_le_length hge]
          exact fun h => hnl (List.mem_of_mem_take h)
        have hlen2 : MaxScanTokenSize ≤ (line ++ 10 :: rest).length := by
          simp only [List.length_append]
          omega
        rw [scanLoop_of_Scan_false _ _ _ (Scan_tooLong _ t htake hlen2)]
        have htw : List.takeWhile fitsBuffer (line :: manifestLines rest) = [] := by
          simp [List.takeWhile, fitsBuffer, hfit]
        rw [htw]
        simp [decodeLines, loopResult]
    · by_cases hne : data = []
      · subst hne
        rw [scanLoop_of_Scan_false _ _ _ (Scan_nil t)]
        simp [manifestLines, splitLines, decodeLines, loopResult]
      · rw [manifestLines_last data hmem hne]
        by_cases hfit : data.length < MaxScanTokenSize
        · rw [scanLoop_of_Scan_true _ _ _ (Scan_last data t hmem hne hfit)]
          have htw : List.takeWhile fitsBuffer [data] = [data] := by
            simp [List.takeWhile, fitsBuffer, hfit]
          rw [htw]
          simp only [decodeLines]
          rw [jsonUnmarshal_dropCR]
          cases hdec : jsonUnmarshal data with
          | none => simp [loopResult]
          | some c =>
            simp only
            rw [scanLoop_of_Scan_false _ _ _ (Scan_nil (dropCR data))]
            simp [loopResult]
        · have htake : 10 ∉ List.take MaxScanTokenSize data :=
            fun h => hmem (List.mem_of_mem_take h)
          rw [scanLoop_of_Scan_false _ _ _ (Scan_tooLong _ t htake (by omega))]
          have htw : List.takeWhile fitsBuffer [data] = [] := by
            simp [List.takeWhile, fitsBuffer, hfit]
          rw [htw]
          simp [decodeLines, loopResult]

theorem decodeLines_eq_some (ls : List Bytes) (cs : List Component) :
    decodeLines ls = some cs ↔ ls.map jsonUnmarshal = cs.map some := by
  induction ls generalizing cs with
  | nil =>
    cases cs <;> simp [decodeLines]
  | cons l ls ih =>
    simp only [decodeLines, List.map_cons]
    cases hl : jsonUnmarshal l with
    | none =>
      cases cs <;> simp
    | some c =>
      cases hd : decodeLines ls with
      | none =>
        cases cs with
        | nil => simp
        | cons c2 cs2 =>
          have := (ih cs2).not.mp (by simp [hd])
          simp [this]
      | some ds =>
        have hds := (ih ds).mp hd
        cases cs with
        | nil => simp
        | cons c2 cs2 =>
          simp only [Option.map_some', Option.some.injEq, List.cons.injEq, List.map_cons]
          constructor
          · rintro ⟨h1, h2⟩
            subst h1
            subst h2
            exact ⟨rfl, hds⟩
          · rintro ⟨h1, h2⟩
            refine ⟨h1, ?_⟩
            rw [hds] at h2
            exact (List.map_injective_iff.mpr (Option.some_injective _)) h2

theorem decodeLines_of_decodable (ls : List Bytes) (h : ∀ l ∈ ls, (jsonUnmarshal l).isSome = true) :
    ∃ cs, decodeLines ls = some cs := by
  induction ls with
  | nil => exact ⟨[], rfl⟩
  | cons l ls ih =>
    obtain ⟨cs, hcs⟩ := ih (fun x hx => h x (List.mem_cons_of_mem _ hx))
    have hl := h l (List.mem_cons_self _ _)
    obtain ⟨c, hc⟩ := Option.isSome_iff_exists.mp hl
    exact ⟨c :: cs, by simp [decodeLines, hc, hcs]⟩

theorem decodeLines_of_undecodable (ls : List Bytes) (l : Bytes) (hl : l ∈ ls)
    (h : jsonUnmarshal l = none) : decodeLines ls = none := by
  induction ls with
  | nil => simp at hl
  | cons x xs ih =>
    simp only [decodeLines]
    cases hx : jsonUnmarshal x with
    | none => rfl
    | some c =>
      rcases List.mem_cons.mp hl with e | e
      · rw [← e, h] at hx
        simp at hx
      · simp [ih e]

theorem takeWhile_fitsBuffer (ls : List Bytes) (h : ∀ l ∈ ls, l.length < MaxScanTokenSize) :
    ls.takeWhile fitsBuffer = ls := by
  rw [List.takeWhile_eq_self_iff]
  intro l hl
  simp [fitsBuffer, h l hl]

/-- What `extractPackages` does, in terms of the lines of the manifest. -/
theorem extractPackages_eq (files : FileMap) (catalog : List SystemComponents) :
    extractPackages files catalog =
      match files machineIdFileName with
      | none => (Outcome.error GoError.machineIDNotFound, catalog)
      | some id =>
        match files packageListFileName with
        | none => (Outcome.error GoError.packageListNotFound, catalog)
        | some manifest =>
          match decodeLines ((manifestLines manifest).takeWhile fitsBuffer) with
          | none => (Outcome.error GoError.unmarshalingComponent, catalog)
          | some cs => (Outcome.ok, catalog ++ [⟨id, cs⟩]) := by
  unfold extractPackages
  cases files machineIdFileName with
  | none => rfl
  | some id =>
    cases files packageListFileName with
    | none => rfl
    | some manifest =>
      simp only [NewScanner]
      rw [scanLoop_eq manifest.length manifest [] [] (Nat.le_refl _)]
      cases decodeLines ((manifestLines manifest).takeWhile fitsBuffer) with
      | none => rfl
      | some cs => simp [loopResult]

theorem jsonUnmarshal_nil : jsonUnmarshal [] = none := by decide

/-! ## Lemmas on `extractPackages` and `handleFileUpload` -/

theorem handleFileUpload_eq (reader : TarReader) (catalog : List SystemComponents) :
    handleFileUpload reader catalog =
      match (untar reader FileMap.empty).1 with
      | Outcome.ok => extractPackages (untar reader FileMap.empty).2 catalog
      | Outcome.error e => (Outcome.error e, catalog)
      | Outcome.panicIndexOutOfRange => (Outcome.panicIndexOutOfRange, catalog) := by
  unfold handleFileUpload
  rcases untar reader FileMap.empty with ⟨o, f⟩
  cases o <;> rfl

theorem extractPackages_catalog (files : FileMap) (catalog : List SystemComponents)
    (h : (extractPackages files catalog).1 ≠ Outcome.ok) :
    (extractPackages files catalog).2 = catalog := by
  rw [extractPackages_eq] at h ⊢
  generalize files machineIdFileName = a at h ⊢
  generalize files packageListFileName = b at h ⊢
  cases a with
  | none => rfl
  | some id =>
    cases b with
    | none => rfl
    | some manifest =>
      simp only at h ⊢
      generalize decodeLines ((manifestLines manifest).takeWhile fitsBuffer) = d at h ⊢
      cases d with
      | none => rfl
      | some cs => simp at h

theorem untar_exampleEntries (manifest : Bytes) :
    (untar (archiveOf (exampleEntries manifest)) FileMap.empty).1 = Outcome.ok ∧
    (untar (archiveOf (exampleEntries manifest)) FileMap.empty).2 machineIdFileName = some exampleID ∧
    (untar (archiveOf (exampleEntries manifest)) FileMap.empty).2 packageListFileName = some manifest := by
  have h1 : (SplitAfterN (bytesOf "up/" ++ machineIdFileName) slash 2)[1]? = some machineIdFileName := by
    rw [show bytesOf "up/" = bytesOf "up" ++ [slash] from by decide, List.append_assoc,
      List.singleton_append]
    rw [SplitAfterN_two_of_split _ _ (by decide)]
    rfl
  have h2 : (SplitAfterN (bytesOf "up/" ++ packageListFileName) slash 2)[1]? = some packageListFileName := by
    rw [show bytesOf "up/" = bytesOf "up" ++ [slash] from by decide, List.append_assoc,
      List.singleton_append]
    rw [SplitAfterN_two_of_split _ _ (by decide)]
    rfl
  have h3 : (SplitAfterN (bytesOf "up/link") slash 2)[1]? = some (bytesOf "link") := by decide
  have hne : machineIdFileName ≠ packageListFileName := by decide
  simp [exampleEntries, archiveOf, untar, TypeDir, TypeReg, h1, h2, FileMap.set, FileMap.empty, hne]


/-! ## The claims -/

/-- C1: a failed ingestion leaves the catalog as it was.  For every archive and every
catalog, when `untar` returns an error, or `untar` succeeds and `extractPackages`
returns an error on the extracted file set (missing identifier, missing manifest, or a
line that does not decode after any number of lines that did), the ingestion reports
that error and `systemComponents` afterwards equals `systemComponents` before. -/
theorem failed_ingestion_leaves_catalog (reader : TarReader)
    (catalog : List SystemComponents) (e : GoError)
    (h : (untar reader FileMap.empty).1 = Outcome.error e ∨
      ((untar reader FileMap.empty).1 = Outcome.ok ∧
        (extractPackages (untar reader FileMap.empty).2 catalog).1 = Outcome.error e)) :
    handleFileUpload reader catalog = (Outcome.error e, catalog) := by
  rw [handleFileUpload_eq]
  rcases h with h | ⟨hok, herr⟩
  · rw [h]
  · rw [hok]
    have hcat := extractPackages_catalog (untar reader FileMap.empty).2 catalog
      (by rw [herr]; simp)
    exact Prod.ext herr hcat

/-- The manifest of the witness of C1: a line that decodes, then one that does not. -/
theorem decodeLines_bad_manifest :
    decodeLines ((manifestLines (bashLine ++ [10] ++ bytesOf "oops" ++ [10])).takeWhile fitsBuffer)
      = none := by
  decide!

/-- Witness of C1: an archive whose manifest has a line that decodes and then one that
does not; the catalog already holds an entry. -/
theorem failed_ingestion_witness :
    ((untar (archiveOf (exampleEntries (bashLine ++ [10] ++ bytesOf "oops" ++ [10])))
        FileMap.empty).1 = Outcome.ok ∧
      (extractPackages (untar (archiveOf (exampleEntries
        (bashLine ++ [10] ++ bytesOf "oops" ++ [10]))) FileMap.empty).2 exampleCatalog).1
        = Outcome.error GoError.unmarshalingComponent) ∧
    handleFileUpload (archiveOf (exampleEntries (bashLine ++ [10] ++ bytesOf "oops" ++ [10])))
      exampleCatalog = (Outcome.error GoError.unmarshalingComponent, exampleCatalog) := by
  have hex := untar_exampleEntries (bashLine ++ [10] ++ bytesOf "oops" ++ [10])
  have herr : (extractPackages (untar (archiveOf (exampleEntries
      (bashLine ++ [10] ++ bytesOf "oops" ++ [10]))) FileMap.empty).2 exampleCatalog).1
      = Outcome.error GoError.unmarshalingComponent := by
    rw [extractPackages_eq, hex.2.1, hex.2.2]
    simp only [decodeLines_bad_manifest]
  exact ⟨⟨hex.1, herr⟩,
    failed_ingestion_leaves_catalog _ _ _ (Or.inr ⟨hex.1, herr⟩)⟩


/-- C3: the catalog is append-only, one append per successful ingestion.  When
`extractPackages` succeeds on a file set, there is one entry `e`, fixed by the file set
alone, such that from every catalog `c` the call leaves exactly `c` followed by `e`:
the length grows by one and every earlier entry keeps its position, whatever `c`
already holds (also an entry with the same system identifier). -/
theorem catalog_append_only (files : FileMap) (catalog : List SystemComponents)
    (h : (extractPackages files catalog).1 = Outcome.ok) :
    ∃ e, files machineIdFileName = some e.SystemID ∧
      ∀ earlier, extractPackages files earlier = (Outcome.ok, earlier ++ [e]) ∧
        (extractPackages files earlier).2.length = earlier.length + 1 ∧
        ∀ i, i < earlier.length → (extractPackages files earlier).2[i]? = earlier[i]? := by
  rw [extractPackages_eq] at h
  cases hid : files machineIdFileName with
  | none => simp [hid] at h
  | some id =>
    cases hm : files packageListFileName with
    | none => simp [hid, hm] at h
    | some manifest =>
      cases hd : decodeLines ((manifestLines manifest).takeWhile fitsBuffer) with
      | none => simp [hid, hm, hd] at h
      | some cs =>
        refine ⟨⟨id, cs⟩, rfl, fun c => ?_⟩
        have heq : extractPackages files c = (Outcome.ok, c ++ [⟨id, cs⟩]) := by
          rw [extractPackages_eq, hid, hm]
          simp only [hd]
        rw [heq]
        refine ⟨rfl, by simp, fun i hi => ?_⟩
        simp [List.getElem?_append_left hi]

theorem lookup_filesWith (id manifest : Bytes) :
    filesWith id manifest machineIdFileName = some id ∧
    filesWith id manifest packageListFileName = some manifest := by
  have hne : machineIdFileName ≠ packageListFileName := by decide
  simp [filesWith, FileMap.set, hne]

theorem decodeLines_bash_manifest :
    decodeLines ((manifestLines (bashLine ++ [10])).takeWhile fitsBuffer)
      = some [bashComponent] := by
  decide!

/-- Witness of C3: a successful ingestion into a catalog that already holds an entry
with the same system identifier. -/
theorem catalog_append_only_witness :
    (extractPackages (filesWith exampleID (bashLine ++ [10])) exampleCatalog).1 = Outcome.ok ∧
    ∃ e, filesWith exampleID (bashLine ++ [10]) machineIdFileName = some e.SystemID ∧
      ∀ earlier, extractPackages (filesWith exampleID (bashLine ++ [10])) earlier
          = (Outcome.ok, earlier ++ [e]) ∧
        (extractPackages (filesWith exampleID (bashLine ++ [10])) earlier).2.length
          = earlier.length + 1 ∧
        ∀ i, i < earlier.length →
          (extractPackages (filesWith exampleID (bashLine ++ [10])) earlier).2[i]? = earlier[i]? := by
  have hok : (extractPackages (filesWith exampleID (bashLine ++ [10])) exampleCatalog).1
      = Outcome.ok := by
    rw [extractPackages_eq, (lookup_filesWith _ _).1, (lookup_filesWith _ _).2]
    simp only [decodeLines_bash_manifest]
  exact ⟨hok, catalog_append_only _ _ hok⟩

/-- C4: missing required files are reported as distinct errors.  Without an entry at
the identifier path `extractPackages` fails with the missing-identifier error, whether
or not the manifest is there; with the identifier entry and without an entry at the
manifest path it fails with the missing-manifest error; with both entries it fails
with neither; the two errors differ, and in both cases the catalog is unchanged. -/
theorem missing_files_reported (files : FileMap) (catalog : List SystemComponents) :
    (files machineIdFileName = none →
      extractPackages files catalog = (Outcome.error GoError.machineIDNotFound, catalog)) ∧
    (files machineIdFileName ≠ none → files packageListFileName = none →
      extractPackages files catalog = (Outcome.error GoError.packageListNotFound, catalog)) ∧
    (files machineIdFileName ≠ none → files packageListFileName ≠ none →
      (extractPackages files catalog).1 ≠ Outcome.error GoError.machineIDNotFound ∧
      (extractPackages files catalog).1 ≠ Outcome.error GoError.packageListNotFound) ∧
    GoError.machineIDNotFound ≠ GoError.packageListNotFound := by
  rw [extractPackages_eq]
  refine ⟨fun h => by rw [h], fun h1 h2 => ?_, fun h1 h2 => ?_, by decide⟩
  · cases hid : files machineIdFileName with
    | none => exact absurd hid h1
    | some id => rw [h2]
  · cases hid : files machineIdFileName with
    | none => exact absurd hid h1
    | some id =>
      cases hm : files packageListFileName with
      | none => exact absurd hm h2
      | some manifest =>
        simp only
        generalize decodeLines ((manifestLines manifest).takeWhile fitsBuffer) = d
        cases d <;> simp

/-- Witness of C4: no file at all, the manifest alone, the identifier alone, and both. -/
theorem missing_files_reported_witness :
    extractPackages FileMap.empty exampleCatalog
      = (Outcome.error GoError.machineIDNotFound, exampleCatalog) ∧
    extractPackages (FileMap.empty.set packageListFileName (bashLine ++ [10])) exampleCatalog
      = (Outcome.error GoError.machineIDNotFound, exampleCatalog) ∧
    extractPackages (FileMap.empty.set machineIdFileName exampleID) exampleCatalog
      = (Outcome.error GoError.packageListNotFound, exampleCatalog) ∧
    (extractPackages (filesWith exampleID (bashLine ++ [10])) exampleCatalog).1
      ≠ Outcome.error GoError.machineIDNotFound ∧
    (extractPackages (filesWith exampleID (bashLine ++ [10])) exampleCatalog).1
      ≠ Outcome.error GoError.packageListNotFound := by
  have hne : machineIdFileName ≠ packageListFileName := by decide
  refine ⟨(missing_files_reported _ _).1 rfl, (missing_files_reported _ _).1 ?_,
    (missing_files_reported _ _).2.1 ?_ ?_, (missing_files_reported _ _).2.2.1 ?_ ?_⟩
  · simp [FileMap.set, FileMap.empty, hne]
  · simp [FileMap.set, FileMap.empty]
  · simp [FileMap.set, FileMap.empty, hne.symm]
  · simp [(lookup_filesWith _ _).1]
  · simp [(lookup_filesWith _ _).2]


/-- Every archive of readable entries with a regular-file entry whose path has no
separator makes `untar` panic, from any map. -/
theorem untar_panics (entries : List (Header × Bytes)) :
    ∀ (m : FileMap), (∃ e ∈ entries, e.1.Typeflag = TypeReg ∧ slash ∉ e.1.Name) →
      (untar (archiveOf entries) m).1 = Outcome.panicIndexOutOfRange := by
  induction entries with
  | nil =>
    intro m h
    obtain ⟨e, he, _⟩ := h
    simp at he
  | cons e0 es ih =>
    intro m h
    obtain ⟨e, he, hreg, hno⟩ := h
    have hunfold : archiveOf (e0 :: es) = TarItem.entry e0.1 (some e0.2) :: archiveOf es := rfl
    rw [hunfold]
    have hnd : ¬ TypeReg = TypeDir := by decide
    by_cases hreg0 : e0.1.Typeflag = TypeReg
    · have hdir0 : ¬ e0.1.Typeflag = TypeDir := by
        rw [hreg0]
        exact hnd
      by_cases hsep0 : slash ∈ e0.1.Name
      · obtain ⟨k0, hk0, _⟩ := stripped_lookup e0.1.Name hsep0
        have hu : untar (TarItem.entry e0.1 (some e0.2) :: archiveOf es) m =
            untar (archiveOf es) (m.set k0 e0.2) := by
          simp only [untar]
          rw [if_neg hdir0, if_pos hreg0]
          simp only [hk0]
        rw [hu]
        refine ih _ ⟨e, ?_, hreg, hno⟩
        rcases List.mem_cons.mp he with heq | hmem
        · rw [heq] at hno
          exact absurd hsep0 hno
        · exact hmem
      · simp only [untar]
        rw [if_neg hdir0, if_pos hreg0, SplitAfterN_two_of_not_mem _ hsep0]
        rfl
    · have hu : untar (TarItem.entry e0.1 (some e0.2) :: archiveOf es) m =
          untar (archiveOf es) m := by
        simp only [untar]
        by_cases hdir0 : e0.1.Typeflag = TypeDir
        · rw [if_pos hdir0]
        · rw [if_neg hdir0, if_neg hreg0]
      rw [hu]
      refine ih _ ⟨e, ?_, hreg, hno⟩
      rcases List.mem_cons.mp he with heq | hmem
      · rw [heq] at hreg
        exact absurd hreg hreg0
      · exact hmem

/-- C6: what `untar` does on a regular-file entry whose path has no `'/'`: the index
`[1]` into the one-piece result of `SplitAfterN` is out of range, and the call panics
instead of returning an error; the upload handler is left by the panic. -/
theorem untar_without_separator_panics :
    SplitAfterN (bytesOf "machine-id") slash 2 = [bytesOf "machine-id"] ∧
    (untar [TarItem.entry ⟨TypeReg, bytesOf "machine-id"⟩ (some exampleID)] FileMap.empty).1
      = Outcome.panicIndexOutOfRange ∧
    handleFileUpload [TarItem.entry ⟨TypeReg, bytesOf "machine-id"⟩ (some exampleID)]
      exampleCatalog = (Outcome.panicIndexOutOfRange, exampleCatalog) := by
  have hsplit : SplitAfterN (bytesOf "machine-id") slash 2 = [bytesOf "machine-id"] :=
    SplitAfterN_two_of_not_mem _ (by decide)
  have hpanic : (untar [TarItem.entry ⟨TypeReg, bytesOf "machine-id"⟩ (some exampleID)]
      FileMap.empty).1 = Outcome.panicIndexOutOfRange := by
    simp [untar, TypeReg, TypeDir, hsplit]
  refine ⟨hsplit, hpanic, ?_⟩
  rw [handleFileUpload_eq, hpanic]

/-- C7: for every archive of entries in which each regular-file path contains a `'/'`,
`untar` succeeds from the empty map, and the resulting file set maps `k` to `b` exactly
when `b` is the content of the last regular-file entry whose path after its first `'/'`
is `k`.  So the wrapper directory is stripped and the bytes are kept, directories and
other non-regular entries add no key and cause no error, and a later entry with the
same stripped path overwrites an earlier one. -/
theorem untar_fileSet (entries : List (Header × Bytes))
    (h : ∀ e ∈ entries, e.1.Typeflag = TypeReg → slash ∈ e.1.Name) :
    (untar (archiveOf entries) FileMap.empty).1 = Outcome.ok ∧
    ∀ k b, (untar (archiveOf entries) FileMap.empty).2 k = some b ↔ LastRegular entries k b := by
  obtain ⟨hok, hmap⟩ := untar_archiveOf entries FileMap.empty h
  refine ⟨hok, fun k b => ?_⟩
  rw [hmap k b]
  simp [FileMap.empty]

theorem slash_mem_wrapped (name : Bytes) : slash ∈ bytesOf "up/" ++ name := by
  rw [show bytesOf "up/" = bytesOf "up" ++ [slash] from by decide]
  simp

/-- Witness of C7: the example archive, with a directory, a symbolic link and two
regular entries for the manifest path; the file set holds the later manifest. -/
theorem untar_fileSet_witness :
    (∀ e ∈ exampleEntries (bashLine ++ [10]), e.1.Typeflag = TypeReg → slash ∈ e.1.Name) ∧
    ((untar (archiveOf (exampleEntries (bashLine ++ [10]))) FileMap.empty).1 = Outcome.ok ∧
      ∀ k b, (untar (archiveOf (exampleEntries (bashLine ++ [10]))) FileMap.empty).2 k = some b ↔
        LastRegular (exampleEntries (bashLine ++ [10])) k b) ∧
    LastRegular (exampleEntries (bashLine ++ [10])) packageListFileName (bashLine ++ [10]) ∧
    ¬ LastRegular (exampleEntries (bashLine ++ [10])) packageListFileName (bytesOf "stale") := by
  have hsep : ∀ e ∈ exampleEntries (bashLine ++ [10]),
      e.1.Typeflag = TypeReg → slash ∈ e.1.Name := by
    intro e he _
    simp only [exampleEntries, List.mem_cons, List.mem_singleton, List.not_mem_nil,
      or_false] at he
    rcases he with rfl | rfl | rfl | rfl | rfl
    · decide
    · exact slash_mem_wrapped _
    · decide
    · exact slash_mem_wrapped _
    · exact slash_mem_wrapped _
  have hlook := (untar_exampleEntries (bashLine ++ [10])).2.2
  refine ⟨hsep, untar_fileSet _ hsep, ?_, ?_⟩
  · exact ((untar_fileSet _ hsep).2 _ _).mp hlook
  · intro hstale
    have h2 := ((untar_fileSet _ hsep).2 _ _).mpr hstale
    rw [hlook] at h2
    have h3 : bashLine ++ [10] = bytesOf "stale" := Option.some.inj h2
    have h4 : (bashLine ++ [10]).length = (bytesOf "stale").length := by rw [h3]
    revert h4
    decide!

/-! ### Lines longer than the scanner's buffer -/

theorem run_spaces (n : Nat) (s : JSONScanner) (h : s.step = StepState.endTop) :
    JSONScanner.run (List.replicate n 32) s = some s := by
  induction n with
  | zero => rfl
  | succ n ih =>
    have hnext : s.next 32 = some s := by
      unfold JSONScanner.next
      rw [h]
      rfl
    simp only [List.replicate_succ, JSONScanner.run, hnext, ih]

theorem jsonUnmarshal_padded (data : Bytes) (n : Nat) (s : JSONScanner)
    (hrun : JSONScanner.run data JSONScanner.reset = some s) (hs : s.step = StepState.endTop) :
    jsonUnmarshal (data ++ List.replicate n 32) = jsonUnmarshal data := by
  have hp : parseJSON (data ++ List.replicate n 32) = parseJSON data := by
    unfold parseJSON
    rw [run_append, hrun]
    simp only [run_spaces n s hs]
  simp [jsonUnmarshal, hp]

theorem zlibLine_run :
    ∃ s, JSONScanner.run zlibLine JSONScanner.reset = some s ∧ s.step = StepState.endTop := by
  refine ⟨⟨StepState.endTop, [], true, Kind.object,
    [(bytesOf "name", Kind.string (bytesOf "zlib"))], bytesOf "name", bytesOf "zlib"⟩, ?_, rfl⟩
  decide

theorem long_record_line (n : Nat) (hn : MaxScanTokenSize ≤ n) :
    manifestLines (zlibLine ++ List.replicate n 32 ++ [10]) = [zlibLine ++ List.replicate n 32] ∧
    jsonUnmarshal (zlibLine ++ List.replicate n 32) = some zlibComponent ∧
    extractPackages (filesWith exampleID (zlibLine ++ List.replicate n 32 ++ [10])) []
      = (Outcome.ok, [⟨exampleID, []⟩]) := by
  have hnl : 10 ∉ zlibLine ++ List.replicate n 32 := by
    have h1 : 10 ∉ zlibLine := by decide
    simp [h1, List.mem_replicate]
  have hlines : manifestLines (zlibLine ++ List.replicate n 32 ++ [10])
      = [zlibLine ++ List.replicate n 32] := by
    have := manifestLines_line (zlibLine ++ List.replicate n 32) [] hnl
    simpa [manifestLines, splitLines] using this
  obtain ⟨s, hrun, hs⟩ := zlibLine_run
  have hdec : jsonUnmarshal (zlibLine ++ List.replicate n 32) = some zlibComponent := by
    rw [jsonUnmarshal_padded zlibLine n s hrun hs]
    decide
  refine ⟨hlines, hdec, ?_⟩
  have hfit : fitsBuffer (zlibLine ++ List.replicate n 32) = false := by
    simp only [fitsBuffer, List.length_append, List.length_replicate, decide_eq_false_iff_not]
    omega
  rw [extractPackages_eq, (lookup_filesWith _ _).1, (lookup_filesWith _ _).2]
  simp only [hlines, List.takeWhile, hfit, decodeLines, List.nil_append]

/-- C2: a manifest of one well-formed record line that is longer than the scanner's
buffer.  The line decodes to a component, yet `extractPackages` returns `nil` and
appends an entry with no component: `Scan` returns `false` at that line and
the loop ends as at the end of the input. -/
theorem long_record_line_dropped :
    manifestLines (zlibLine ++ List.replicate 65536 32 ++ [10])
      = [zlibLine ++ List.replicate 65536 32] ∧
    jsonUnmarshal (zlibLine ++ List.replicate 65536 32) = some zlibComponent ∧
    extractPackages (filesWith exampleID (zlibLine ++ List.replicate 65536 32 ++ [10])) []
      = (Outcome.ok, [⟨exampleID, []⟩]) :=
  long_record_line 65536 (by decide)

theorem long_bad_line (n : Nat) (hn : MaxScanTokenSize ≤ n) :
    manifestLines (bashLine ++ [10] ++ List.replicate n 120 ++ [10] ++ zlibLine ++ [10])
      = [bashLine, List.replicate n 120, zlibLine] ∧
    jsonUnmarshal (List.replicate n 120) = none ∧
    extractPackages (filesWith exampleID
        (bashLine ++ [10] ++ List.replicate n 120 ++ [10] ++ zlibLine ++ [10])) []
      = (Outcome.ok, [⟨exampleID, [bashComponent]⟩]) := by
  have h1 : 10 ∉ bashLine := by decide!
  have h2 : 10 ∉ List.replicate n 120 := by simp [List.mem_replicate]
  have h3 : 10 ∉ zlibLine := by decide
  have hlines : manifestLines
      (bashLine ++ [10] ++ List.replicate n 120 ++ [10] ++ zlibLine ++ [10])
      = [bashLine, List.replicate n 120, zlibLine] := by
    have e : bashLine ++ [10] ++ List.replicate n 120 ++ [10] ++ zlibLine ++ [10]
        = bashLine ++ 10 :: (List.replicate n 120 ++ 10 :: (zlibLine ++ 10 :: [])) := by
      simp
    rw [e, manifestLines_line _ _ h1, manifestLines_line _ _ h2, manifestLines_line _ _ h3]
    rfl
  have hbad : jsonUnmarshal (List.replicate n 120) = none := by
    obtain ⟨m, rfl⟩ : ∃ m, n = m + 1 := ⟨n - 1, by simp only [MaxScanTokenSize] at hn; omega⟩
    have hp : parseJSON (List.replicate (m + 1) 120) = none := by
      have hnext : JSONScanner.reset.next 120 = none := by decide
      simp [parseJSON, List.replicate_succ, JSONScanner.run, hnext]
    simp [jsonUnmarshal, hp]
  refine ⟨hlines, hbad, ?_⟩
  have hfit1 : fitsBuffer bashLine = true := by decide!
  have hfit2 : fitsBuffer (List.replicate n 120) = false := by
    simp only [fitsBuffer, List.length_replicate, decide_eq_false_iff_not]
    omega
  have hdec : jsonUnmarshal bashLine = some bashComponent := by decide!
  have htw : List.takeWhile fitsBuffer [bashLine, List.replicate n 120, zlibLine]
      = [bashLine] := by
    rw [List.takeWhile_cons, hfit1, List.takeWhile_cons, hfit2]
    rfl
  have hdl : decodeLines [bashLine] = some [bashComponent] := by
    unfold decodeLines
    rw [hdec]
    rfl
  rw [extractPackages_eq, (lookup_filesWith _ _).1, (lookup_filesWith _ _).2]
  simp only [hlines, htw, hdl, List.nil_append]

/-- C8: a manifest whose second line cannot be decoded and is longer than the
scanner's buffer, between two well-formed lines.  `extractPackages` returns `nil` and
appends an entry that holds the first component only: the bad line and the line after
it are left out without an error. -/
theorem long_bad_line_skipped :
    manifestLines (bashLine ++ [10] ++ List.replicate 65536 120 ++ [10] ++ zlibLine ++ [10])
      = [bashLine, List.replicate 65536 120, zlibLine] ∧
    jsonUnmarshal (List.replicate 65536 120) = none ∧
    extractPackages (filesWith exampleID
        (bashLine ++ [10] ++ List.replicate 65536 120 ++ [10] ++ zlibLine ++ [10])) []
      = (Outcome.ok, [⟨exampleID, [bashComponent]⟩]) :=
  long_bad_line 65536 (by decide)


/-! ### Lookup keys and empty lines -/

/-- What `extractPackages` does when all lines of the manifest fit the scanner's
buffer and decode. -/
theorem extractPackages_of_decodable (files : FileMap) (catalog : List SystemComponents)
    (id manifest : Bytes) (hid : files machineIdFileName = some id)
    (hm : files packageListFileName = some manifest)
    (hfit : ∀ l ∈ manifestLines manifest, l.length < MaxScanTokenSize)
    (hwf : ∀ l ∈ manifestLines manifest, (jsonUnmarshal l).isSome = true) :
    ∃ cs, (manifestLines manifest).map jsonUnmarshal = cs.map some ∧
      extractPackages files catalog = (Outcome.ok, catalog ++ [⟨id, cs⟩]) := by
  obtain ⟨cs, hcs⟩ := decodeLines_of_decodable _ hwf
  refine ⟨cs, (decodeLines_eq_some _ _).mp hcs, ?_⟩
  rw [extractPackages_eq, hid, hm]
  simp only [takeWhile_fitsBuffer _ hfit, hcs]

/-- What `extractPackages` does when all lines of the manifest fit the scanner's
buffer and one of them does not decode. -/
theorem extractPackages_of_undecodable (files : FileMap) (catalog : List SystemComponents)
    (id manifest l : Bytes) (hid : files machineIdFileName = some id)
    (hm : files packageListFileName = some manifest)
    (hfit : ∀ l ∈ manifestLines manifest, l.length < MaxScanTokenSize)
    (hl : l ∈ manifestLines manifest) (hbad : jsonUnmarshal l = none) :
    extractPackages files catalog = (Outcome.error GoError.unmarshalingComponent, catalog) := by
  rw [extractPackages_eq, hid, hm]
  simp only [takeWhile_fitsBuffer _ hfit, decodeLines_of_undecodable _ l hl hbad]

/-- C5, as stated, fails: a file set with entries at `etc/insights-client/machine-id`
and `insights_commands/rpm_...`, the manifest one well-formed line.  `extractPackages`
does not find the identifier and appends nothing. -/
theorem spec_keys_not_found :
    specFiles exampleID (bashLine ++ [10]) (bytesOf "etc/insights-client/machine-id")
      = some exampleID ∧
    specFiles exampleID (bashLine ++ [10])
      (bytesOf "insights_commands/rpm_-qa_--qf_name_NAME_epoch_EPOCH_version_VERSION_release_RELEASE_arch_ARCH_installtime_INSTALLTIME_date_buildtime_BUILDTIME_vendor_VENDOR_buildhost_BUILDHOST_sigpgp_SIGPGP_pgpsig_n")
      = some (bashLine ++ [10]) ∧
    (manifestLines (bashLine ++ [10])).map jsonUnmarshal = [some bashComponent] ∧
    extractPackages (specFiles exampleID (bashLine ++ [10])) exampleCatalog
      = (Outcome.error GoError.machineIDNotFound, exampleCatalog) := by
  have hne : bytesOf "etc/insights-client/machine-id" ≠ bytesOf "insights_commands/rpm_-qa_--qf_name_NAME_epoch_EPOCH_version_VERSION_release_RELEASE_arch_ARCH_installtime_INSTALLTIME_date_buildtime_BUILDTIME_vendor_VENDOR_buildhost_BUILDHOST_sigpgp_SIGPGP_pgpsig_n" := by
    decide
  have h1 : machineIdFileName ≠ bytesOf "etc/insights-client/machine-id" := by decide
  have h2 : machineIdFileName ≠ bytesOf "insights_commands/rpm_-qa_--qf_name_NAME_epoch_EPOCH_version_VERSION_release_RELEASE_arch_ARCH_installtime_INSTALLTIME_date_buildtime_BUILDTIME_vendor_VENDOR_buildhost_BUILDHOST_sigpgp_SIGPGP_pgpsig_n" := by
    decide
  refine ⟨by simp [specFiles, FileMap.set, hne], by simp [specFiles, FileMap.set],
    by decide!, ?_⟩
  have hnone : specFiles exampleID (bashLine ++ [10]) machineIdFileName = none := by
    simp [specFiles, FileMap.set, FileMap.empty, h1, h2]
  rw [extractPackages_eq, hnone]

/-- C5, amended: the lookup keys are `data/etc/insights-client/machine-id` and
`data/insights_commands/rpm_...`.  For every file set with entries at these two keys
whose manifest lines all fit the scanner's buffer and are well-formed,
`extractPackages` succeeds and appends an entry built from the two entries: the
identifier entry's content and the decodings of the manifest lines. -/
theorem lookup_keys (files : FileMap) (catalog : List SystemComponents) (id manifest : Bytes)
    (hid : files (bytesOf "data/etc/insights-client/machine-id") = some id)
    (hm : files (bytesOf "data/insights_commands/rpm_-qa_--qf_name_NAME_epoch_EPOCH_version_VERSION_release_RELEASE_arch_ARCH_installtime_INSTALLTIME_date_buildtime_BUILDTIME_vendor_VENDOR_buildhost_BUILDHOST_sigpgp_SIGPGP_pgpsig_n")
      = some manifest)
    (hfit : ∀ l ∈ manifestLines manifest, l.length < MaxScanTokenSize)
    (hwf : ∀ l ∈ manifestLines manifest, (jsonUnmarshal l).isSome = true) :
    ∃ cs, (manifestLines manifest).map jsonUnmarshal = cs.map some ∧
      extractPackages files catalog = (Outcome.ok, catalog ++ [⟨id, cs⟩]) :=
  extractPackages_of_decodable files catalog id manifest hid hm hfit hwf

theorem two_line_manifest :
    (∀ l ∈ manifestLines (bashLine ++ [10] ++ zlibLine ++ [10]), l.length < MaxScanTokenSize) ∧
    (∀ l ∈ manifestLines (bashLine ++ [10] ++ zlibLine ++ [10]),
      (jsonUnmarshal l).isSome = true) := by
  decide!

/-- Witness of C5, amended: a manifest of two record lines under the keys of the code. -/
theorem lookup_keys_witness :
    ∃ cs, (manifestLines (bashLine ++ [10] ++ zlibLine ++ [10])).map jsonUnmarshal
        = cs.map some ∧
      extractPackages (filesWith exampleID (bashLine ++ [10] ++ zlibLine ++ [10])) exampleCatalog
        = (Outcome.ok, exampleCatalog ++ [⟨exampleID, cs⟩]) :=
  lookup_keys _ exampleCatalog exampleID _ (lookup_filesWith _ _).1 (lookup_filesWith _ _).2
    two_line_manifest.1 two_line_manifest.2

/-- C9, as stated, fails: a manifest with a blank line between two well-formed
records.  `extractPackages` returns the decode error and appends nothing. -/
theorem blank_line_rejected :
    manifestLines (bashLine ++ [10] ++ [10] ++ zlibLine ++ [10]) = [bashLine, [], zlibLine] ∧
    jsonUnmarshal bashLine = some bashComponent ∧
    jsonUnmarshal zlibLine = some zlibComponent ∧
    extractPackages (filesWith exampleID (bashLine ++ [10] ++ [10] ++ zlibLine ++ [10]))
      exampleCatalog = (Outcome.error GoError.unmarshalingComponent, exampleCatalog) := by
  have hlines : manifestLines (bashLine ++ [10] ++ [10] ++ zlibLine ++ [10])
      = [bashLine, [], zlibLine] := by decide!
  refine ⟨hlines, by decide!, by decide, ?_⟩
  refine extractPackages_of_undecodable _ _ exampleID _ [] (lookup_filesWith _ _).1
    (lookup_filesWith _ _).2 ?_ ?_ jsonUnmarshal_nil
  · rw [hlines]
    decide!
  · rw [hlines]
    decide

/-- C9, amended: every manifest line is a record, an empty line included.  For every
file set with both required files whose manifest lines all fit the scanner's buffer:
when all lines are well-formed, `extractPackages` succeeds and the entry's components
are, in order, the decodings of the lines; an empty line is not well-formed, and when
the manifest has one, `extractPackages` returns the decode error and appends nothing. -/
theorem every_line_is_a_record (files : FileMap) (catalog : List SystemComponents)
    (id manifest : Bytes) (hid : files machineIdFileName = some id)
    (hm : files packageListFileName = some manifest)
    (hfit : ∀ l ∈ manifestLines manifest, l.length < MaxScanTokenSize) :
    ((∀ l ∈ manifestLines manifest, (jsonUnmarshal l).isSome = true) →
      ∃ cs, (manifestLines manifest).map jsonUnmarshal = cs.map some ∧
        extractPackages files catalog = (Outcome.ok, catalog ++ [⟨id, cs⟩])) ∧
    jsonUnmarshal [] = none ∧
    ([] ∈ manifestLines manifest →
      extractPackages files catalog = (Outcome.error GoError.unmarshalingComponent, catalog)) :=
  ⟨extractPackages_of_decodable files catalog id manifest hid hm hfit, jsonUnmarshal_nil,
    fun h => extractPackages_of_undecodable files catalog id manifest [] hid hm hfit h
      jsonUnmarshal_nil⟩

theorem blank_line_manifest :
    (∀ l ∈ manifestLines (zlibLine ++ [10] ++ [10] ++ zlibLine), l.length < MaxScanTokenSize) ∧
    [] ∈ manifestLines (zlibLine ++ [10] ++ [10] ++ zlibLine) := by
  decide!

/-- Witness of C9, amended: a manifest of two record lines, and one with a doubled
newline between two records. -/
theorem every_line_is_a_record_witness :
    (∃ cs, (manifestLines (bashLine ++ [10] ++ zlibLine ++ [10])).map jsonUnmarshal
        = cs.map some ∧
      extractPackages (filesWith exampleID (bashLine ++ [10] ++ zlibLine ++ [10])) []
        = (Outcome.ok, [] ++ [⟨exampleID, cs⟩])) ∧
    extractPackages (filesWith exampleID (zlibLine ++ [10] ++ [10] ++ zlibLine)) exampleCatalog
      = (Outcome.error GoError.unmarshalingComponent, exampleCatalog) :=
  ⟨(every_line_is_a_record _ [] exampleID _ (lookup_filesWith _ _).1 (lookup_filesWith _ _).2
      two_line_manifest.1).1 two_line_manifest.2,
    (every_line_is_a_record _ exampleCatalog exampleID _ (lookup_filesWith _ _).1
      (lookup_filesWith _ _).2 blank_line_manifest.1).2.2 blank_line_manifest.2⟩

end IngressTest
